import Mathlib

/-!
# Verification of the SEO-Page-Builder extraction / repair / validation pipeline

This file gives a shallow embedding, in Lean 4, of the schema-driven
extraction, validation and auto-repair pipeline implemented in
`src/utils/openrouter.ts` (the repository contains two concatenated
revisions of this module; both are embedded where they differ), together
with the provider allow-list from `providerIds.ts`.

Modelling conventions:

* JavaScript runtime values that flow through the pipeline are modelled by
  the dynamic type `JsVal`.  JSON has no `undefined`, so an absent field is
  modelled by `Option` at access sites.  JS numbers are modelled as `Int`
  (no claim depends on fractional or non-finite numeric behaviour).
* Property access `x.f` on `null` throws a `TypeError` in JS; functions in
  which the source can perform such an access are embedded in
  `Except Unit`, and `.error ()` models a thrown exception.  Property
  access on other primitives yields `undefined` (here `none`), which is
  what the source relies on.
* The schema manifest is operator-controlled configuration with the
  documented shape `{ contentBlockTypes: [...] }` (spec §3); it is
  modelled by the typed structure `MBlock` below, with `Option` fields
  mirroring the source's `manifestBlock?.field` optional accesses.  A
  missing / malformed manifest is modelled by `none`.
* `Date.now()` / `Math.random()` key generation is non-deterministic; the
  generated key strings are threaded in as a `ts : Nat` parameter.  No
  claim depends on the key values, only on their presence.
* `console.*` logging is pure output and is dropped.
-/

/-- A JavaScript value as it occurs in the pipeline (parsed JSON data).
Object fields are an ordered association list, as in JS insertion order. -/
inductive JsVal where
  | null : JsVal
  | bool : Bool → JsVal
  | num : Int → JsVal
  | str : String → JsVal
  | arr : List JsVal → JsVal
  | obj : List (String × JsVal) → JsVal

namespace JsVal

/-- JS truthiness of a value (`NaN` is not modelled). -/
def truthy : JsVal → Bool
  | .null => false
  | .bool b => b
  | .num n => n ≠ 0
  | .str s => s ≠ ""
  | .arr _ => true
  | .obj _ => true

/-- Truthiness of a possibly-`undefined` value. -/
def truthyOpt : Option JsVal → Bool
  | none => false
  | some v => v.truthy

/-- `typeof v === 'object'` (true for `null`, arrays and objects). -/
def typeofObject : JsVal → Bool
  | .null => true
  | .arr _ => true
  | .obj _ => true
  | _ => false

def isStr : JsVal → Bool
  | .str _ => true
  | _ => false

def isArr : JsVal → Bool
  | .arr _ => true
  | _ => false

def isNum : JsVal → Bool
  | .num _ => true
  | _ => false

def isNull : JsVal → Bool
  | .null => true
  | _ => false

end JsVal

/-- First binding of a key in an object's field list (JS objects have
unique keys; on lists with duplicates the first binding is authoritative,
matching every lookup below). -/
def getKey : List (String × JsVal) → String → Option JsVal
  | [], _ => none
  | (k, v) :: tl, f => if k = f then some v else getKey tl f

/-- `f in obj` : key membership. -/
def hasKey (fs : List (String × JsVal)) (f : String) : Bool :=
  fs.any (fun kv => kv.1 = f)

/-- Assignment `obj[f] = v`: updates the first binding of `f` in place, or
appends a new binding (JS insertion-order semantics). -/
def setKey : List (String × JsVal) → String → JsVal → List (String × JsVal)
  | [], f, v => [(f, v)]
  | (k, w) :: tl, f, v => if k = f then (f, v) :: tl else (k, w) :: setKey tl f v

/-- `delete obj[f]`: remove every binding of `f`. -/
def eraseKey : List (String × JsVal) → String → List (String × JsVal)
  | [], _ => []
  | (k, v) :: tl, f => if k = f then eraseKey tl f else (k, v) :: eraseKey tl f

/-- Property access `v.f` on a total (non-throwing) base: arrays and other
primitives have none of the `_`-fields the pipeline reads, so they yield
`undefined`.  Must not be used where the base can be `null`. -/
def JsVal.get : JsVal → String → Option JsVal
  | .obj fs, f => getKey fs f
  | _, _ => none

/-- Property access `v.f` with JS `TypeError` semantics: throws on `null`. -/
def JsVal.getMem : JsVal → String → Except Unit (Option JsVal)
  | .null, _ => .error ()
  | .obj fs, f => .ok (getKey fs f)
  | _, _ => .ok none

theorem sanity_getKey : getKey [("a", .num 1), ("b", .null)] "b" = some .null := rfl

/-- `o === s` for a possibly-undefined value against a string literal
(strict equality: only a string with the same contents compares equal). -/
def getIsStr (o : Option JsVal) (s : String) : Bool :=
  match o with
  | some (.str t) => t = s
  | _ => false

/-- Structural induction for `JsVal` through the nested lists. -/
theorem JsVal.inductionOn {P : JsVal → Prop}
    (hnull : P .null) (hbool : ∀ b, P (.bool b)) (hnum : ∀ n, P (.num n))
    (hstr : ∀ s, P (.str s))
    (harr : ∀ xs, (∀ x ∈ xs, P x) → P (.arr xs))
    (hobj : ∀ fs, (∀ kv ∈ fs, P kv.2) → P (.obj fs)) :
    ∀ v, P v
  | .null => hnull
  | .bool b => hbool b
  | .num n => hnum n
  | .str s => hstr s
  | .arr xs => harr xs (fun x hx =>
      JsVal.inductionOn hnull hbool hnum hstr harr hobj x)
  | .obj fs => hobj fs (fun kv hkv =>
      JsVal.inductionOn hnull hbool hnum hstr harr hobj kv.2)
  termination_by v => sizeOf v
  decreasing_by
  · have := List.sizeOf_lt_of_mem hx
    simp only [JsVal.arr.sizeOf_spec]
    omega
  · have h1 := List.sizeOf_lt_of_mem hkv
    have h2 : sizeOf kv.2 < sizeOf kv := by
      obtain ⟨a, b⟩ := kv
      simp only [Prod.mk.sizeOf_spec]
      omega
    simp only [JsVal.obj.sizeOf_spec]
    omega

/-! ## Decidable equality for `JsVal` -/

mutual

def jsBeq : JsVal → JsVal → Bool
  | .null, .null => true
  | .bool a, .bool b => a == b
  | .num a, .num b => a == b
  | .str a, .str b => a == b
  | .arr xs, .arr ys => jsBeqList xs ys
  | .obj fs, .obj gs => jsBeqFields fs gs
  | _, _ => false

def jsBeqList : List JsVal → List JsVal → Bool
  | [], [] => true
  | x :: xs, y :: ys => jsBeq x y && jsBeqList xs ys
  | _, _ => false

def jsBeqFields : List (String × JsVal) → List (String × JsVal) → Bool
  | [], [] => true
  | (k, v) :: xs, (l, w) :: ys => k == l && jsBeq v w && jsBeqFields xs ys
  | _, _ => false

end

theorem jsBeq_iff : ∀ a b : JsVal, jsBeq a b = true ↔ a = b := by
  intro a
  induction a using JsVal.inductionOn with
  | hnull => intro b; cases b <;> simp [jsBeq]
  | hbool x => intro b; cases b <;> simp [jsBeq]
  | hnum x => intro b; cases b <;> simp [jsBeq]
  | hstr x => intro b; cases b <;> simp [jsBeq]
  | harr xs ih =>
    intro b
    cases b <;> simp only [jsBeq, JsVal.arr.injEq] <;>
      try (exact iff_of_false (by simp) (by simp))
    case arr ys =>
      induction xs generalizing ys with
      | nil => cases ys <;> simp [jsBeqList]
      | cons x xs ihl =>
        cases ys with
        | nil => simp [jsBeqList]
        | cons y ys =>
          have hx := ih x (by simp) y
          have hxs := ihl (fun z hz => ih z (by simp [hz])) ys
          simp [jsBeqList, hx, hxs]
  | hobj fs ih =>
    intro b
    cases b <;> simp only [jsBeq, JsVal.obj.injEq] <;>
      try (exact iff_of_false (by simp) (by simp))
    case obj gs =>
      induction fs generalizing gs with
      | nil => cases gs <;> simp [jsBeqFields]
      | cons kv fs ihl =>
        cases gs with
        | nil => obtain ⟨k, v⟩ := kv; simp [jsBeqFields]
        | cons lw gs =>
          obtain ⟨k, v⟩ := kv
          obtain ⟨l, w⟩ := lw
          have hv := ih (k, v) (by simp) w
          have hfs := ihl (fun z hz => ih z (by simp [hz])) gs
          simp only [jsBeqFields, Bool.and_eq_true, beq_iff_eq, hv, hfs,
            List.cons.injEq, Prod.mk.injEq]
          try tauto

instance : DecidableEq JsVal := fun a b => decidable_of_iff _ (jsBeq_iff a b)

deriving instance DecidableEq for Except

/-! ## Provider allow-list (`providerIds.ts`) -/

/-- `PROVIDER_ID_MAP` from `providerIds.ts`: provider name → Sanity id. -/
def PROVIDER_ID_MAP : List (String × String) :=
  [("Vindstød", "63c05ca2-cd1e-4f00-b544-6a2077d4031a"),
   ("Andel Energi", "9451a43b-6e68-4914-945c-73a81a508214"),
   ("Norlys", "9526e0ba-cbe8-4526-9abc-7dabb4756b2b"),
   ("NRGi", "a6541984-3dbb-466a-975b-badba029e139")]

/-- `PROVIDER_WHITELIST = Object.values(PROVIDER_ID_MAP)`. -/
def PROVIDER_WHITELIST : List String := PROVIDER_ID_MAP.map (fun kv => kv.2)

/-- `isValidProviderId = (id) => PROVIDER_WHITELIST.includes(id)`; a
non-string argument is never `===` to any whitelisted string. -/
def isValidProviderId (id : String) : Bool := PROVIDER_WHITELIST.contains id

/-- `PROVIDER_WHITELIST.includes(p._ref)` where `p._ref` may be any value. -/
def isValidProviderRef (o : Option JsVal) : Bool :=
  match o with
  | some (.str s) => isValidProviderId s
  | _ => false

/-! ## Generic JS string conversions -/

mutual

/-- `String(v)` (also the conversion used by template literals).  An array
stringifies by joining its elements with `,`, where a `null` element
yields the empty string. -/
def jsToString : JsVal → String
  | .null => "null"
  | .bool b => if b then "true" else "false"
  | .num n => toString n
  | .str s => s
  | .arr xs => String.intercalate "," (jsToStringElems xs)
  | .obj _ => "[object Object]"

/-- Elements under `Array.prototype.join`: `null` joins as `''`. -/
def jsToStringElems : List JsVal → List String
  | [] => []
  | .null :: tl => "" :: jsToStringElems tl
  | x :: tl => jsToString x :: jsToStringElems tl

end

/-- Escape of `"` and `\` inside a JSON string literal (the only escapes
the embedded data can require). -/
def jsonEscape (s : String) : String :=
  String.join (s.toList.map (fun c =>
    if c = '"' then "\\\"" else if c = '\\' then "\\\\" else String.singleton c))

mutual

/-- `JSON.stringify(v)` (members with `undefined` values cannot occur in
the model; numbers are integers). -/
def jsonStringify : JsVal → String
  | .null => "null"
  | .bool b => if b then "true" else "false"
  | .num n => toString n
  | .str s => "\"" ++ jsonEscape s ++ "\""
  | .arr xs => "[" ++ String.intercalate "," (jsonStringifyElems xs) ++ "]"
  | .obj fs => "\x7b" ++ String.intercalate "," (jsonStringifyMembers fs) ++ "\x7d"

def jsonStringifyElems : List JsVal → List String
  | [] => []
  | x :: tl => jsonStringify x :: jsonStringifyElems tl

def jsonStringifyMembers : List (String × JsVal) → List String
  | [] => []
  | (k, v) :: tl =>
      ("\"" ++ jsonEscape k ++ "\":" ++ jsonStringify v) :: jsonStringifyMembers tl

end

/-- `value.replace(/\s+/g, ' ')`: collapse every whitespace run to one
space.  The boolean records whether the previous character was whitespace. -/
def collapseWsAux : Bool → List Char → List Char
  | _, [] => []
  | inWs, c :: tl =>
    if c.isWhitespace then
      if inWs then collapseWsAux true tl else ' ' :: collapseWsAux true tl
    else c :: collapseWsAux false tl

def collapseWs (s : String) : String := (collapseWsAux false s.toList).asString

/-- `s.includes(pat)` (substring containment). -/
def containsSub (s pat : String) : Bool :=
  (List.range (s.length + 1)).any
    (fun i => (s.toList.drop i).take pat.length = pat.toList)

/-! ## `_toPlainString`: flatten a Portable-Text-like array to a string -/

/-- One `children` entry: `c.text` joined by `''` — a `null` entry throws,
a missing/`null` `text` joins as the empty string, anything else is
converted with `String(...)`. -/
def childText : JsVal → Except Unit String
  | .null => .error ()
  | c => .ok
      (match c.get "text" with
       | none => ""
       | some .null => ""
       | some w => jsToString w)

/-- One element of the flattened array:
`typeof v === 'object' && v?._type === 'block' ? (v.children || []).map(c => c.text).join('') : String(v)`. -/
def ptElem (v : JsVal) : Except Unit String :=
  if v.typeofObject && getIsStr (v.get "_type") "block" then
    match v.get "children" with
    | some (.arr cs) => cs.foldlM (fun acc c => do pure (acc ++ (← childText c))) ""
    | some w => if w.truthy then .error () else .ok ""  -- `.map` on a truthy non-array throws
    | none => .ok ""
  else .ok (jsToString v)

/-- `_toPlainString` from `openrouter.ts`. -/
def toPlainString : JsVal → Except Unit String
  | .arr xs => do
      let parts ← xs.mapM ptElem
      pure (collapseWs (String.intercalate " " parts)).trim
  | v => .ok (if v.typeofObject then jsonStringify v else jsToString v)

/-! ## `enforceFieldType`: the field coercion engine -/

/-- The `wasType` diagnostic: `Array.isArray(value) ? 'array' : typeof value`. -/
def wasTypeOf : JsVal → String
  | .null => "object"
  | .bool _ => "boolean"
  | .num _ => "number"
  | .str _ => "string"
  | .arr _ => "array"
  | .obj _ => "object"

/-- `!isNaN(Number(value))` for a string plus the parsed value.  JS
`Number()` on a trimmed empty string is `0`; otherwise an optional sign
followed by digits (fractional literals are outside the integer value
model; no claim exercises them). -/
def strToNum? (s : String) : Option Int :=
  let t := s.trim
  if t = "" then some 0
  else
    let (sign, ds) :=
      match t.toList with
      | '-' :: tl => ((-1 : Int), tl)
      | '+' :: tl => ((1 : Int), tl)
      | l => ((1 : Int), l)
    if ds ≠ [] ∧ ds.all Char.isDigit then
      some (sign * (ds.foldl (fun acc c => acc * 10 + (c.toNat - '0'.toNat)) 0 : Nat))
    else none

/-- A synthetic Portable Text span node (keys are threaded in for
`Date.now()`/`Math.random()`). -/
def ptSpan (key text : String) : JsVal :=
  .obj [("_type", .str "span"), ("_key", .str key),
        ("text", .str text), ("marks", .arr [])]

/-- The synthetic Portable Text block `enforceFieldType` wraps a string in. -/
def ptWrapBlock (ts : Nat) (text : String) : JsVal :=
  .obj [("_type", .str "block"), ("_key", .str s!"block-{ts}"),
        ("style", .str "normal"),
        ("children", .arr [ptSpan s!"span-{ts}" text]),
        ("markDefs", .arr [])]

/-- Result record of `enforceFieldType` (`value` is only present when a
fix produced a replacement). -/
structure FixResult where
  fixed : Bool
  dropped : Bool
  value : Option JsVal := none
  wasType : String
  deriving DecidableEq

/-- `enforceFieldType(fieldName, value, expectedType, ...)` from
`openrouter.ts` (the name/index parameters feed only log lines).  The
value is the field's current value (the caller iterates existing keys, so
it is never absent).  May throw via `_toPlainString`. -/
def enforceFieldType (ts : Nat) (value : JsVal) (expectedType : String) :
    Except Unit FixResult :=
  let wasType := wasTypeOf value
  if expectedType = "string" then
    match value with
    | .arr l => do
        let flattened ← toPlainString (.arr l)
        if flattened ≠ "" ∧ flattened.trim ≠ "" then
          pure ⟨true, false, some (.str flattened), wasType⟩
        else
          pure ⟨false, true, none, wasType⟩
    | .str _ => .ok ⟨false, false, none, wasType⟩
    | .null => .ok ⟨false, true, none, wasType⟩
    | v => .ok ⟨true, false, some (.str (jsToString v)), wasType⟩
  else if containsSub expectedType "array" then
    match value with
    | .arr _ => .ok ⟨false, false, none, wasType⟩
    | .str s =>
      if containsSub expectedType "Portable Text" then
        .ok ⟨true, false, some (.arr [ptWrapBlock ts s]), wasType⟩
      else if containsSub expectedType "strings" then
        .ok ⟨true, false, some (.arr [.str s]), wasType⟩
      else .ok ⟨false, true, none, wasType⟩
    | v =>
      if containsSub expectedType "strings" then
        .ok ⟨true, false, some (.arr [.str (jsToString v)]), wasType⟩
      else .ok ⟨false, true, none, wasType⟩
  else if expectedType = "number" then
    match value with
    | .num _ => .ok ⟨false, false, none, wasType⟩
    | .str s =>
      match strToNum? s with
      | some n => .ok ⟨true, false, some (.num n), wasType⟩
      | none => .ok ⟨false, true, none, wasType⟩
    | _ => .ok ⟨false, true, none, wasType⟩
  else .ok ⟨false, false, none, wasType⟩

/-! ## Schema manifest model -/

def isStrOpt (o : Option JsVal) : Bool :=
  match o with
  | some (.str _) => true
  | _ => false

/-- One entry of `schema.contentBlockTypes` (spec §3 `BlockTypeSpec`); the
`Option` fields mirror the source's `blockType.fieldTypes &&` /
`manifestBlock?.requiredFields` optional accesses.  The `description`
field feeds only prompt text and is omitted. -/
structure MBlock where
  type : String
  requiredFields : Option (List String) := none
  fieldTypes : Option (List (String × String)) := none
  fieldEnums : Option (List (String × List String)) := none

/-- A schema manifest: `none` models a missing / malformed manifest
(`!schema?.contentBlockTypes`), `some m` the `contentBlockTypes` array. -/
def Manifest := List MBlock

/-- `extractSchemaFieldTypes`: block type → its `fieldTypes` map, for
blocks with a truthy `type` and a `fieldTypes` object. -/
def extractSchemaFieldTypes : Option Manifest → List (String × List (String × String))
  | none => []
  | some m => m.filterMap (fun bt =>
      match bt.fieldTypes with
      | some ft => if bt.type ≠ "" then some (bt.type, ft) else none
      | none => none)

/-- `extractReferenceOnlyFields`: block type → field names whose declared
type string contains `'references'` or `'reference'`. -/
def extractReferenceOnlyFields : Option Manifest → List (String × List String)
  | none => []
  | some m => m.filterMap (fun bt =>
      let refFields :=
        (bt.fieldTypes.getD []).filterMap (fun kv =>
          if containsSub kv.2 "references" || containsSub kv.2 "reference" then
            some kv.1
          else none)
      if refFields.length > 0 then some (bt.type, refFields) else none)

/-! ## `sanitizeReferenceOnlyArray` and `removeProblematicFields` -/

/-- Result record of `sanitizeReferenceOnlyArray`. -/
structure RefArrayFix where
  fixed : Bool
  value : Option (List JsVal) := none
  originalCount : Nat
  validCount : Nat
  droppedCount : Nat

/-- A strictly-valid reference entry:
`item._type === 'reference' && typeof item._ref === 'string' && item._ref.trim() !== ''`. -/
def goodRefEntry (item : JsVal) : Bool :=
  getIsStr (item.get "_type") "reference" &&
  (match item.get "_ref" with
   | some (.str s) => s.trim ≠ ""
   | _ => false)

/-- `item._ref && typeof item._ref === 'string'`: the `_type` of the entry
can be repaired. -/
def fixableRefEntry (item : JsVal) : Bool :=
  match item.get "_ref" with
  | some (.str s) => s ≠ ""
  | _ => false

/-- `{ _type: 'reference', _ref: item._ref }` plus `_key` / `_weak` when
truthy (`item._ref` is a string in every call context, by the guards). -/
def cleanRefEntry (item : JsVal) : JsVal :=
  .obj ([("_type", JsVal.str "reference"),
         ("_ref", (item.get "_ref").getD .null)] ++
    (if JsVal.truthyOpt (item.get "_key") then
       [("_key", (item.get "_key").getD .null)] else []) ++
    (if JsVal.truthyOpt (item.get "_weak") then
       [("_weak", (item.get "_weak").getD .null)] else []))

/-- `sanitizeReferenceOnlyArray(value, ...)` from `openrouter.ts`:
keeps only reference-shaped entries (repairing a missing `_type`),
dropping non-objects and inline records. -/
def sanitizeReferenceOnlyArray (v : JsVal) : RefArrayFix :=
  match v with
  | .arr l =>
      let valids := l.filterMap (fun item =>
        if ¬ (item.truthy && item.typeofObject) then none
        else if goodRefEntry item || fixableRefEntry item then
          some (cleanRefEntry item)
        else none)
      let droppedCount := l.length - valids.length
      { fixed := valids.length ≠ l.length || droppedCount > 0,
        value := some valids,
        originalCount := l.length,
        validCount := valids.length,
        droppedCount := droppedCount }
  | _ => { fixed := false, originalCount := 0, validCount := 0, droppedCount := 0 }

/-- `removeProblematicFields(obj, fieldsToRemove, ...)`: delete each named
field that is present, counting removals. -/
def removeProblematicFields (b : List (String × JsVal)) (fieldsToRemove : List String) :
    List (String × JsVal) × Nat :=
  fieldsToRemove.foldl
    (fun acc f => if hasKey acc.1 f then (eraseKey acc.1 f, acc.2 + 1) else acc)
    (b, 0)

/-! ## `fixFaqGroup` -/

/-- `item._type === 'faqItem' && typeof item.question === 'string' && Array.isArray(item.answer)`. -/
def faqItemValid (item : JsVal) : Bool :=
  getIsStr (item.get "_type") "faqItem" &&
  isStrOpt (item.get "question") &&
  (match item.get "answer" with
   | some (.arr _) => true
   | _ => false)

/-- The filter of `fixFaqGroup`: non-objects and falsy entries are
dropped, then only valid inline `faqItem` records are kept. -/
def faqKeep (item : JsVal) : Bool :=
  item.truthy && item.typeofObject && faqItemValid item

/-- A bare reference entry (`_type === 'reference'`) — the shape the FAQ
repairer must drop, since the schema mandates inline records. -/
def bareRef : JsVal → Bool
  | .obj fs => getIsStr (getKey fs "_type") "reference"
  | _ => false

/-- The placeholder inline `faqItem` that `fixFaqGroup` synthesizes for an
empty list. -/
def placeholderFaqItem (ts : Nat) : JsVal :=
  .obj [("_type", .str "faqItem"), ("_key", .str s!"faq-{ts}"),
        ("question", .str "Placeholder spørgsmål"),
        ("answer", .arr [.obj
          [("_type", .str "block"), ("_key", .str s!"block-{ts}"),
           ("style", .str "normal"),
           ("children", .arr [.obj
             [("_type", .str "span"), ("_key", .str s!"span-{ts}"),
              ("text", .str "FAQ-indhold mangler."), ("marks", .arr [])]]),
           ("markDefs", .arr [])]])]

/-- `fixFaqGroup(block, ...)` from `openrouter.ts`, on the block's field
list (the caller guarantees the block is a non-null object).  Returns the
updated fields plus `(fixesApplied, violationsDetected)`. -/
def fixFaqGroup (ts : Nat) (b : List (String × JsVal)) :
    List (String × JsVal) × Nat × Nat :=
  let init :=
    match getKey b "faqItems" with
    | some (.arr l) => (l, 0)
    | _ => (([] : List JsVal), 1)
  let items0 := init.1
  let kept := items0.filter faqKeep
  let viol := items0.length - kept.length
  let fix1 := if kept.length ≠ items0.length then 1 else 0
  let final :=
    if kept.isEmpty then ([placeholderFaqItem ts], 1) else (kept, 0)
  (setKey b "faqItems" (.arr final.1), init.2 + fix1 + final.2, viol)

/-! ## `fixProviderList` -/

/-- `PROVIDER_WHITELIST[0]` (the preferred, Vindstød, id). -/
def providerFirst : String := PROVIDER_WHITELIST.headD ""

/-- One disjunct of the `needsfix` scan:
`typeof p !== 'object' || p._type !== 'reference' || !p._ref || !isValidProviderId(p._ref) || (i === 0 && p._ref !== PROVIDER_WHITELIST[0])`.
Throws (as the source does) when `p` is `null`: `typeof null === 'object'`,
so the scan reads `p._type` off `null`. -/
def providerEntryBad (i : Nat) (p : JsVal) : Except Unit Bool :=
  if ¬ p.typeofObject then pure true
  else do
    let t ← p.getMem "_type"
    if ¬ getIsStr t "reference" then pure true
    else do
      let r ← p.getMem "_ref"
      if ¬ JsVal.truthyOpt r then pure true
      else if ¬ isValidProviderRef r then pure true
      else if i = 0 ∧ ¬ getIsStr r providerFirst then pure true
      else pure false

/-- `block.providers.some((p, i) => ...)` with its left-to-right
short-circuit. -/
def anyBadFrom (i : Nat) : List JsVal → Except Unit Bool
  | [] => pure false
  | p :: tl => do
      if (← providerEntryBad i p) then pure true else anyBadFrom (i + 1) tl

/-- The full `needsfix` condition of `fixProviderList`. -/
def providersNeedFix (ps : Option JsVal) : Except Unit Bool :=
  match ps with
  | some (.arr l) => if l.isEmpty then pure true else anyBadFrom 0 l
  | _ => pure true

/-- The replacement array: `PROVIDER_WHITELIST.slice(0, min(4, len))`
turned into reference objects (the generated `_key`s come from the
threaded `ts`). -/
def whitelistProviders (ts : Nat) : List JsVal :=
  (PROVIDER_WHITELIST.take 4).map (fun id =>
    .obj [("_type", .str "reference"), ("_ref", .str id),
          ("_key", .str s!"provider-{ts}")])

/-- `fixProviderList(block, ...)` from `openrouter.ts` (first revision; the
second revision differs only in not adding `_key`s, embedded below), on
the block's field list.  Returns updated fields plus
`(fixesApplied, violationsDetected)`; the source's
`if (block.providers.length === 0) violationsDetected++` can never fire
(the fresh array has 4 entries). -/
def fixProviderList (ts : Nat) (b : List (String × JsVal)) :
    Except Unit (List (String × JsVal) × Nat × Nat) := do
  let needsfix ← providersNeedFix (getKey b "providers")
  if needsfix then
    pure (setKey b "providers" (.arr (whitelistProviders ts)), 1, 0)
  else
    pure (b, 0, 0)

/-! ## `sanitizeAllReferences` (first revision, lines 902–950) -/

def refAllowedKeys : List String := ["_type", "_ref", "_key", "_weak"]

/-- Reference detection: `obj._ref || obj._type === 'reference'`. -/
def isRefDetect (fs : List (String × JsVal)) : Bool :=
  JsVal.truthyOpt (getKey fs "_ref") || getIsStr (getKey fs "_type") "reference"

/-- The rewrite both sanitizer revisions apply to a detected reference
object, in source order: (1) delete every key outside the allowed four,
(2) force `_type` to `'reference'` when `_ref` is truthy, and — only in
the first revision, `full = true` — (3) delete a truthy non-string
`_ref`.  Returns the new fields and the `sanitizedCount` increment. -/
def sanitizeRefFields (full : Bool) (fs : List (String × JsVal)) :
    List (String × JsVal) × Nat :=
  let invalid := fs.filter (fun kv => ¬ refAllowedKeys.contains kv.1)
  let fs1 := fs.filter (fun kv => refAllowedKeys.contains kv.1)
  let c1 := if invalid.isEmpty then 0 else 1
  let step2 :=
    if JsVal.truthyOpt (getKey fs1 "_ref") ∧
       ¬ getIsStr (getKey fs1 "_type") "reference" then
      (setKey fs1 "_type" (.str "reference"), 1)
    else (fs1, 0)
  let step3 :=
    if full ∧ JsVal.truthyOpt (getKey step2.1 "_ref") ∧
       ¬ isStrOpt (getKey step2.1 "_ref") then
      (eraseKey step2.1 "_ref", 1)
    else (step2.1, 0)
  (step3.1, c1 + step2.2 + step3.2)

mutual

/-- `sanitizeAllReferences(obj)` (first revision, lines 902–950) as a pure
transformation returning the sanitized value and the `sanitizedCount` the
source accumulates.  A detected reference object is rewritten by
`sanitizeRefFields` — without recursing into its values; other objects
and arrays recurse depth-first. -/
def sanitizeAllReferences : JsVal → JsVal × Nat
  | .arr xs =>
      let rs := sanitizeAllList xs
      (.arr rs.1, rs.2)
  | .obj fs =>
      if isRefDetect fs then
        let r := sanitizeRefFields true fs
        (.obj r.1, r.2)
      else
        let rs := sanitizeAllFields fs
        (.obj rs.1, rs.2)
  | v => (v, 0)

def sanitizeAllList : List JsVal → List JsVal × Nat
  | [] => ([], 0)
  | x :: tl =>
      let r := sanitizeAllReferences x
      let rs := sanitizeAllList tl
      (r.1 :: rs.1, r.2 + rs.2)

def sanitizeAllFields : List (String × JsVal) → List (String × JsVal) × Nat
  | [] => ([], 0)
  | (k, v) :: tl =>
      let r := sanitizeAllReferences v
      let rs := sanitizeAllFields tl
      ((k, r.1) :: rs.1, r.2 + rs.2)

end

mutual

/-- The second revision's nested `sanitizeReferences` (lines 1894–1935):
identical except that it does not delete a truthy non-string `_ref`. -/
def sanitizeReferences2 : JsVal → JsVal × Nat
  | .arr xs =>
      let rs := sanitize2List xs
      (.arr rs.1, rs.2)
  | .obj fs =>
      if isRefDetect fs then
        let r := sanitizeRefFields false fs
        (.obj r.1, r.2)
      else
        let rs := sanitize2Fields fs
        (.obj rs.1, rs.2)
  | v => (v, 0)

def sanitize2List : List JsVal → List JsVal × Nat
  | [] => ([], 0)
  | x :: tl =>
      let r := sanitizeReferences2 x
      let rs := sanitize2List tl
      (r.1 :: rs.1, r.2 + rs.2)

def sanitize2Fields : List (String × JsVal) → List (String × JsVal) × Nat
  | [] => ([], 0)
  | (k, v) :: tl =>
      let r := sanitizeReferences2 v
      let rs := sanitize2Fields tl
      ((k, r.1) :: rs.1, r.2 + rs.2)

end

/-! ## `validateFieldType` / `validateContentBlocks`: the compliance validator -/

/-- `typeof v` as the string JS renders in diagnostics. -/
def jsTypeofName : JsVal → String
  | .null => "object"
  | .bool _ => "boolean"
  | .num _ => "number"
  | .str _ => "string"
  | .arr _ => "object"
  | .obj _ => "object"

/-- A validation warning, minus the block index: the index appears only
inside the rendered message text, so it is supplied at render time. -/
structure Warn where
  tag : Option String
  body : String
  deriving DecidableEq

/-- `Block ${blockIndex}: ...` / `Block ${blockIndex} (${block._type}): ...`. -/
def renderWarn (index : Nat) (w : Warn) : String :=
  let b := w.body
  match w.tag with
  | some t => s!"Block {index} ({t}): {b}"
  | none => s!"Block {index}: {b}"

/-- Per-item check of the `'array of strings'` case.  Throws on a `null`
item: `typeof item === 'object'` holds for `null`, and the source then
reads `item._type`. -/
def stringArrayItemWarns (fieldName : String) (tag : String)
    (itemIndex : Nat) (item : JsVal) : Except Unit (List Warn) := do
  let tn := jsTypeofName item
  let w1 :=
    if ¬ item.isStr then
      [⟨some tag, s!"Field \"{fieldName}[{itemIndex}]\" should be a string, got {tn}. Do not use Portable Text blocks for string arrays."⟩]
    else []
  if item.typeofObject then do
    let t ← item.getMem "_type"
    if getIsStr t "block" then
      pure (w1 ++ [⟨some tag, s!"Field \"{fieldName}[{itemIndex}]\" contains Portable Text block but should be plain string"⟩])
    else pure w1
  else pure w1

/-- Per-item check of the `'array of references'` case, including the
`providerList.providers` whitelist checks.  Throws on a `null` item. -/
def refArrayItemWarns (fieldName : String) (blockType : String)
    (itemIndex : Nat) (item : JsVal) : Except Unit (List Warn) := do
  if item.isStr then
    pure [⟨some blockType, s!"Field \"{fieldName}[{itemIndex}]\" should be a reference object, not a string"⟩]
  else if ¬ item.typeofObject then
    pure [⟨some blockType, s!"Field \"{fieldName}[{itemIndex}]\" should be a reference object with _type: 'reference' and _ref property"⟩]
  else do
    let t ← item.getMem "_type"
    let r ← item.getMem "_ref"
    if ¬ (getIsStr t "reference" && JsVal.truthyOpt r) then
      pure [⟨some blockType, s!"Field \"{fieldName}[{itemIndex}]\" should be a reference object with _type: 'reference' and _ref property"⟩]
    else if blockType = "providerList" ∧ fieldName = "providers" then
      let rs := jsToString (r.getD .null)
      let pf := providerFirst
      let w1 :=
        if itemIndex = 0 ∧ ¬ getIsStr r providerFirst then
          [⟨some blockType, s!"First provider must be Vindstød ({pf}), got {rs}"⟩]
        else []
      let w2 :=
        if ¬ isValidProviderRef r then
          [⟨some blockType, s!"Provider ID \"{rs}\" not in whitelist"⟩]
        else []
      pure (w1 ++ w2)
    else
      pure []

/-- Per-item check of the `'array of Portable Text blocks'` case.  Throws
on a `null` item. -/
def ptArrayItemWarns (fieldName : String) (tag : String)
    (itemIndex : Nat) (item : JsVal) : Except Unit (List Warn) := do
  if ¬ item.typeofObject then
    pure [⟨some tag, s!"Field \"{fieldName}[{itemIndex}]\" should be a Portable Text block with _type: 'block'"⟩]
  else do
    let t ← item.getMem "_type"
    if ¬ getIsStr t "block" then
      pure [⟨some tag, s!"Field \"{fieldName}[{itemIndex}]\" should be a Portable Text block with _type: 'block'"⟩]
    else pure []

/-- Fold an indexed per-item check over an array (`forEach` with abort on
throw). -/
def foldItemWarns (f : Nat → JsVal → Except Unit (List Warn)) :
    Nat → List JsVal → Except Unit (List Warn)
  | _, [] => pure []
  | i, x :: tl => do
      let w ← f i x
      let rest ← foldItemWarns f (i + 1) tl
      pure (w ++ rest)

/-- `validateFieldType(fieldName, fieldValue, fieldType, blockType, ...)`
from `openrouter.ts`: the switch over declared type tags.  `fieldValue` is
non-null (the caller skips `undefined` and `null`). -/
def validateFieldTypeCore (fieldName : String) (fieldValue : JsVal)
    (fieldType : String) (blockType : String) : Except Unit (List Warn) :=
  let tn := jsTypeofName fieldValue
  if fieldType = "array of strings" then
    match fieldValue with
    | .arr items => foldItemWarns (stringArrayItemWarns fieldName blockType) 0 items
    | _ => pure [⟨some blockType, s!"Field \"{fieldName}\" should be an array of strings, got {tn}"⟩]
  else if fieldType = "array of references" then
    match fieldValue with
    | .arr items => foldItemWarns (refArrayItemWarns fieldName blockType) 0 items
    | _ => pure [⟨some blockType, s!"Field \"{fieldName}\" should be an array of references, got {tn}"⟩]
  else if fieldType = "array of Portable Text blocks" then
    match fieldValue with
    | .arr items => foldItemWarns (ptArrayItemWarns fieldName blockType) 0 items
    | _ => pure [⟨some blockType, s!"Field \"{fieldName}\" should be an array of Portable Text blocks, got {tn}"⟩]
  else if fieldType = "icon.manager" then
    let ok := fieldValue.typeofObject &&
      getIsStr (fieldValue.get "_type") "icon.manager" &&
      JsVal.truthyOpt (fieldValue.get "icon")
    if ¬ ok then
      pure [⟨some blockType, s!"Field \"{fieldName}\" must be an icon.manager object with _type: 'icon.manager' and icon property"⟩]
    else pure []
  else if fieldType = "image" ∨ fieldType = "image?" ∨
      fieldType = "Sanity image object with valid asset reference" then
    if fieldType = "image?" ∧ fieldValue.isNull then pure []
    else
      let asset := fieldValue.get "asset"
      let ok := fieldValue.typeofObject && JsVal.truthyOpt asset &&
        JsVal.truthyOpt (match asset with
          | some av => av.get "_ref"
          | none => none)
      if ¬ ok then
        pure [⟨some blockType, s!"Field \"{fieldName}\" must be a Sanity image object with asset._ref property"⟩]
      else pure []
  else if fieldType = "number" then
    if ¬ fieldValue.isNum then
      pure [⟨some blockType, s!"Field \"{fieldName}\" should be a number, got {tn}"⟩]
    else pure []
  else if fieldType = "string" then
    if ¬ fieldValue.isStr then
      pure [⟨some blockType, s!"Field \"{fieldName}\" should be a string, got {tn}"⟩]
    else pure []
  else pure []

/-- `manifestBlockMap[t]` built by `reduce` (a later entry with the same
`type` overwrites an earlier one). -/
def manifestLookup (m : Manifest) (t : String) : Option MBlock :=
  m.reverse.find? (fun bt => bt.type = t)

/-- The required-field check (step 3): present, non-`null`, non-empty. -/
def requiredWarns (rf : List String) (tag : String)
    (fs : List (String × JsVal)) : List Warn :=
  rf.filterMap (fun f =>
    let bad := ¬ hasKey fs f ||
      (match getKey fs f with
       | some .null => true
       | some (.str "") => true
       | _ => false)
    if bad then some ⟨some tag, s!"Missing required field \"{f}\""⟩ else none)

/-- The declared-type check (step 4): skipped for `undefined`/`null` values. -/
def fieldTypeWarns (ft : List (String × String)) (blockType : String)
    (fs : List (String × JsVal)) : Except Unit (List Warn) :=
  ft.foldlM (fun acc kv =>
    match getKey fs kv.1 with
    | none => pure acc
    | some .null => pure acc
    | some v => do
        let ws ← validateFieldTypeCore kv.1 v kv.2 blockType
        pure (acc ++ ws)) []

/-- The enum check (step 5): skipped for `undefined`/`null` values; a
non-string value is never `===` to an allowed string. -/
def enumWarns (fe : List (String × List String)) (tag : String)
    (fs : List (String × JsVal)) : List Warn :=
  fe.filterMap (fun kv =>
    match getKey fs kv.1 with
    | none => none
    | some .null => none
    | some v =>
        let isIn := match v with
          | .str s => kv.2.contains s
          | _ => false
        if !isIn then
          let joined := String.intercalate ", " kv.2
          let vs := jsToString v
          let f := kv.1
          some ⟨some tag, s!"Field \"{f}\" must be one of: {joined}. Got: \"{vs}\""⟩
        else none)

/-- The per-block body of `validateContentBlocks` (identical in both
revisions), minus the block index, which only enters rendered messages.
Throws on a `null` block (the first property read). -/
def validateBlockCore (types : List String) (m : Manifest) (block : JsVal) :
    Except Unit (List Warn) :=
  match block with
  | .null => .error ()
  | .obj fs =>
      let t := getKey fs "_type"
      if ¬ JsVal.truthyOpt t then pure [⟨none, "Missing _type field"⟩]
      else
        let tv := t.getD .null
        let tstr := jsToString tv
        let keyW :=
          if ¬ JsVal.truthyOpt (getKey fs "_key") then
            [⟨some tstr, "Missing _key field"⟩]
          else []
        let known := match tv with
          | .str s => types.contains s
          | _ => false
        if !known then
          let joined := String.intercalate ", " types
          pure (keyW ++ [⟨none, s!"Invalid _type \"{tstr}\". Valid types: {joined}"⟩])
        else do
          let s := match tv with
            | .str s => s
            | _ => ""
          let mb := manifestLookup m s
          let reqW := requiredWarns ((mb.bind (fun b => b.requiredFields)).getD []) tstr fs
          let ftW ← fieldTypeWarns ((mb.bind (fun b => b.fieldTypes)).getD []) s fs
          let enW := enumWarns ((mb.bind (fun b => b.fieldEnums)).getD []) tstr fs
          pure (keyW ++ reqW ++ ftW ++ enW)
  | _ => pure [⟨none, "Missing _type field"⟩]

/-- Result of `validateContentBlocks`. -/
structure VRes where
  isValid : Bool
  warnings : List String
  deriving DecidableEq

/-- The `contentBlocks.forEach` of `validateContentBlocks`, rendering each
block's warnings with its index. -/
def validateBlocksAux (types : List String) (m : Manifest) :
    Nat → List JsVal → Except Unit (List String)
  | _, [] => pure []
  | i, b :: tl => do
      let ws ← validateBlockCore types m b
      let rest ← validateBlocksAux types m (i + 1) tl
      pure (ws.map (renderWarn i) ++ rest)

/-- `validateContentBlocks(contentBlocks, schema)` from `openrouter.ts`
(both revisions are textually identical).  `isValid` is true iff the
warning list is empty. -/
def validateContentBlocks (blocks : List JsVal) (schema : Option Manifest) :
    Except Unit VRes :=
  match schema with
  | none => .ok ⟨false, ["Schema manifest not available for validation"]⟩
  | some m => do
      let types := m.map (fun bt => bt.type)
      let ws ← validateBlocksAux types m 0 blocks
      pure ⟨ws.isEmpty, ws⟩

/-! ## `validateGenerationRequest`: the pre-generation precondition check -/

/-- `\`Invalid block types requested: ${ij}. Available types: ${aj}\``. -/
def invalidBlocksMsg (ij aj : String) : String :=
  "Invalid block types requested: " ++ ij ++ ". Available types: " ++ aj

/-- The request fields the precondition check reads (tone, goal, length
and example/related pages feed only prompt text and are omitted). -/
structure GenerationRequest where
  topic : String
  keywords : List String
  optionalBlocks : List String
  schema : Option Manifest

/-- Result of `validateGenerationRequest`. -/
structure ReqValidation where
  isValid : Bool
  errors : List String
  deriving DecidableEq

/-- `validateGenerationRequest(request)` from `openrouter.ts` (both
revisions are textually identical).  Note the early `return` when the
manifest is missing: the topic / keyword checks are not reached. -/
def validateGenerationRequest (request : GenerationRequest) : ReqValidation :=
  match request.schema with
  | none =>
      ⟨false, ["Schema manifest not loaded - ensure elportal-schema-manifest.json is available"]⟩
  | some m =>
      let manifestBlockTypes := m.map (fun bt => bt.type)
      let invalidBlocks := request.optionalBlocks.filter
        (fun bt => ¬ manifestBlockTypes.contains bt)
      let e1 :=
        if invalidBlocks.length > 0 then
          [invalidBlocksMsg (String.intercalate ", " invalidBlocks)
            (String.intercalate ", " manifestBlockTypes)]
        else []
      let e2 := if request.topic.trim.length = 0 then ["Topic is required"] else []
      let e3 :=
        if request.keywords.isEmpty ||
            request.keywords.all (fun k => k.trim.length = 0) then
          ["At least one keyword is required"]
        else []
      let errors := e1 ++ e2 ++ e3
      ⟨errors.isEmpty, errors⟩

/-! ## `JSON.parse`: a recursive-descent parser

Numbers are restricted to (optionally signed) integer literals and string
escapes to the single-character ones — the value model carries `Int` and
no embedded claim involves fractional literals or `\u` escapes. -/

def isWsChar (c : Char) : Bool := c = ' ' || c = '\t' || c = '\n' || c = '\x0d'

def skipWs (l : List Char) : List Char := l.dropWhile isWsChar

/-- Consume an exact literal. -/
def eatLit : List Char → List Char → Option (List Char)
  | [], l => some l
  | c :: cs, d :: l => if c = d then eatLit cs l else none
  | _ :: _, [] => none

/-- Single-character string escapes. -/
def escMap (e : Char) : Option Char :=
  if e = '"' ∨ e = '\\' ∨ e = '/' then some e
  else if e = 'n' then some '\n'
  else if e = 't' then some '\t'
  else if e = 'r' then some '\x0d'
  else if e = 'b' then some '\x08'
  else if e = 'f' then some '\x0c'
  else none

/-- Body of a string literal after the opening quote. -/
def parseJStr : List Char → Option (List Char × List Char)
  | [] => none
  | '"' :: tl => some ([], tl)
  | '\\' :: e :: tl =>
      match escMap e with
      | some c =>
          match parseJStr tl with
          | some (cs, r) => some (c :: cs, r)
          | none => none
      | none => none
  | c :: tl =>
      if c = '\\' then none
      else
        match parseJStr tl with
        | some (cs, r) => some (c :: cs, r)
        | none => none

/-- One or more digits. -/
def parseDigits (l : List Char) : Option (Nat × List Char) :=
  let ds := l.takeWhile Char.isDigit
  let rest := l.dropWhile Char.isDigit
  if ds.isEmpty then none
  else some (ds.foldl (fun acc c => acc * 10 + (c.toNat - '0'.toNat)) 0, rest)

mutual

/-- One JSON value (leading whitespace allowed); `fuel` bounds recursion
and exceeds any input's needs at `length + 1`. -/
def parseVal : Nat → List Char → Option (JsVal × List Char)
  | 0, _ => none
  | f + 1, l =>
    match skipWs l with
    | 'n' :: tl => (eatLit ['u', 'l', 'l'] tl).map (fun r => (.null, r))
    | 't' :: tl => (eatLit ['r', 'u', 'e'] tl).map (fun r => (.bool true, r))
    | 'f' :: tl => (eatLit ['a', 'l', 's', 'e'] tl).map (fun r => (.bool false, r))
    | '"' :: tl => (parseJStr tl).map (fun p => (.str p.1.asString, p.2))
    | '{' :: tl =>
        (match skipWs tl with
         | '}' :: r => some (.obj [], r)
         | l2 => (parseMembers f l2 []).map (fun p => (.obj p.1, p.2)))
    | '[' :: tl =>
        (match skipWs tl with
         | ']' :: r => some (.arr [], r)
         | l2 => (parseElems f l2 []).map (fun p => (.arr p.1, p.2)))
    | '-' :: tl => (parseDigits tl).map (fun p => (.num (-(p.1 : Int)), p.2))
    | c :: tl =>
        if c.isDigit then
          (parseDigits (c :: tl)).map (fun p => (.num (p.1 : Int), p.2))
        else none
    | [] => none

/-- Members of an object after `{` (at least one); a duplicate key keeps
the last value at the first position, as `JSON.parse` does. -/
def parseMembers : Nat → List Char → List (String × JsVal) →
    Option (List (String × JsVal) × List Char)
  | 0, _, _ => none
  | f + 1, l, acc =>
    match skipWs l with
    | '"' :: tl =>
        match parseJStr tl with
        | some (ks, r1) =>
            (match skipWs r1 with
             | ':' :: r2 =>
                 match parseVal f r2 with
                 | some (v, r3) =>
                     let acc' := setKey acc ks.asString v
                     (match skipWs r3 with
                      | ',' :: r4 => parseMembers f r4 acc'
                      | '}' :: r4 => some (acc', r4)
                      | _ => none)
                 | none => none
             | _ => none)
        | none => none
    | _ => none

/-- Elements of an array after `[` (at least one). -/
def parseElems : Nat → List Char → List JsVal → Option (List JsVal × List Char)
  | 0, _, _ => none
  | f + 1, l, acc =>
    match parseVal f l with
    | some (v, r1) =>
        let acc' := acc ++ [v]
        (match skipWs r1 with
         | ',' :: r2 => parseElems f r2 acc'
         | ']' :: r2 => some (acc', r2)
         | _ => none)
    | none => none

end

/-- `JSON.parse(s)`: `none` models a thrown `SyntaxError`. -/
def jsonParse (s : String) : Option JsVal :=
  match parseVal (s.length + 1) s.toList with
  | some (v, rest) => if (skipWs rest).isEmpty then some v else none
  | none => none

/-! ## The boundary-scan extraction stage

The stage-3 regex `/\{(?:[^{}]|{(?:[^{}]|{[^{}]*})*})*\}/` matches, at a
given start, exactly a balanced brace group whose nesting depth is at most
3 (the alternation admits a non-brace character or a complete inner group,
one grammar level per nesting level, so the match must run to the brace
that closes the group, and a fourth nesting level makes every parse fail);
the regex engine takes the leftmost position where a match exists.
`takeGroup d` consumes the remainder of a group at current open depth `d`
under that depth cap. -/
def takeGroup : Nat → List Char → Option (List Char × List Char)
  | _, [] => none
  | d, c :: r =>
      if c = '{' then
        if d ≥ 3 then none
        else (takeGroup (d + 1) r).map (fun p => (c :: p.1, p.2))
      else if c = '}' then
        if d = 1 then some ([c], r)
        else (takeGroup (d - 1) r).map (fun p => (c :: p.1, p.2))
      else (takeGroup d r).map (fun p => (c :: p.1, p.2))

/-- Leftmost match of the boundary-scan regex. -/
def findGroup : List Char → Option (List Char)
  | [] => none
  | c :: r =>
      if c = '{' then
        match takeGroup 1 r with
        | some p => some ('{' :: p.1)
        | none => findGroup r
      else findGroup r

/-- `content.match(/\{(?:[^{}]|{(?:[^{}]|{[^{}]*})*})*\}/)`, first match. -/
def boundaryMatch (s : String) : Option String :=
  (findGroup s.toList).map List.asString

/-- Stage 3 of the extraction cascade: boundary scan, then
`JSON.parse(jsonMatch[0])`; `none` when the stage fails (no match or
parse error) and the cascade moves on. -/
def boundaryStage (content : String) : Option JsVal :=
  (boundaryMatch content).bind jsonParse

/-! ## `applyAutoFixes` (first revision, lines 423–645) -/

/-- `{ ...v }`: object spread; arrays and strings spread their indexed
elements, other primitives spread to nothing. -/
def spreadToFields : JsVal → List (String × JsVal)
  | .obj fs => fs
  | .arr xs => xs.enum.map (fun ic => (toString ic.1, ic.2))
  | .str s => s.toList.enum.map (fun ic => (toString ic.1, JsVal.str (String.singleton ic.2)))
  | _ => []

/-- The field-type-enforcement loop: iterate the block's keys (snapshot at
loop entry), skip `_`-prefixed keys and keys without a declared type, and
apply `enforceFieldType`, assigning a fixed value or deleting a dropped
field. -/
def enforceFields (ts : Nat) (blockSchema : List (String × String)) :
    List String → List (String × JsVal) → Except Unit (List (String × JsVal))
  | [], b => pure b
  | f :: tl, b =>
      if f.startsWith "_" then enforceFields ts blockSchema tl b
      else
        match blockSchema.lookup f with
        | none => enforceFields ts blockSchema tl b
        | some expectedType =>
            match getKey b f with
            | none => enforceFields ts blockSchema tl b
            | some v => do
                let fr ← enforceFieldType ts v expectedType
                let b' :=
                  if fr.fixed then setKey b f (fr.value.getD .null)
                  else if fr.dropped then eraseKey b f
                  else b
                enforceFields ts blockSchema tl b'

/-- The reference-only-array loop: for each declared reference field that
is present, run `sanitizeReferenceOnlyArray` and assign when it fixed
something. -/
def applyRefOnlyFields (refFields : List String) (b : List (String × JsVal)) :
    List (String × JsVal) :=
  refFields.foldl (fun b f =>
    if ¬ hasKey b f then b
    else
      let fr := sanitizeReferenceOnlyArray ((getKey b f).getD .null)
      if fr.fixed then setKey b f (.arr (fr.value.getD [])) else b) b

/-- The `valueProposition.items` / `featureList.features` cleanup: map
each entry to a copy without `icon` (dropping falsy / non-object
entries), but assign the cleaned array only when its length changed. -/
def cleanIconItems (b : List (String × JsVal)) (field : String) :
    List (String × JsVal) :=
  match getKey b field with
  | some (.arr items) =>
      let cleaned := items.filterMap (fun item =>
        if ¬ (item.truthy && item.typeofObject) then none
        else some (JsVal.obj (removeProblematicFields (spreadToFields item) ["icon"]).1))
      if cleaned.length ≠ items.length then setKey b field (.arr cleaned) else b
  | _ => b

/-- Per-block body of the first revision's `applyAutoFixes`
(`JSON.parse(JSON.stringify(blk))` is the identity on the JSON value
model).  Returns `none` for a dropped block. -/
def autoFix1Block (ts : Nat) (sft : List (String × List (String × String)))
    (rof : List (String × List String)) (blk : JsVal) :
    Except Unit (Option JsVal) := do
  if ¬ (blk.truthy && blk.typeofObject) then pure none
  else
    match blk.get "_type" with
    | some (.str btype) =>
        if btype = "" then pure none
        else do
          let b := match blk with
            | .obj fs => fs
            | _ => []
          -- 1. `_key` must be a string with non-blank trim
          let keyBad : Bool := match getKey b "_key" with
            | some (.str k) => k.trim = ""
            | _ => true
          let b := if keyBad then setKey b "_key" (.str s!"{btype}-{ts}") else b
          -- 2. remove `icon` wholesale
          let b := (removeProblematicFields b ["icon"]).1
          -- 3. videoSection customThumbnail
          let b :=
            if btype = "videoSection" ∧ hasKey b "customThumbnail" then
              eraseKey b "customThumbnail"
            else b
          -- field-type enforcement
          let blockSchema := (sft.lookup btype).getD []
          let keys := b.map Prod.fst
          let b ← enforceFields ts blockSchema keys b
          -- reference-only arrays
          let refFields := (rof.lookup btype).getD []
          let b := applyRefOnlyFields refFields b
          -- special cases
          let b := if btype = "faqGroup" then (fixFaqGroup ts b).1 else b
          let b ←
            if btype = "providerList" then do
              let r ← fixProviderList ts b
              pure r.1
            else pure b
          let b := if btype = "valueProposition" then cleanIconItems b "items" else b
          let b := if btype = "featureList" then cleanIconItems b "features" else b
          pure (some (.obj b))
    | _ => pure none

/-- `applyAutoFixes(contentBlocks, schema)` — first revision: per-block
repair, `null` blocks filtered out, then the deep reference sanitization
pass over every surviving block. -/
def applyAutoFixes1 (ts : Nat) (contentBlocks : List JsVal)
    (schema : Option Manifest) : Except Unit (List JsVal) := do
  let sft := extractSchemaFieldTypes schema
  let rof := extractReferenceOnlyFields schema
  let fixed ← contentBlocks.foldlM (fun acc blk => do
      let r ← autoFix1Block ts sft rof blk
      pure (match r with
            | some b => acc ++ [b]
            | none => acc)) []
  pure (fixed.map (fun b => (sanitizeAllReferences b).1))

/-! ## `applyAutoFixes` (second revision, lines 1742–1967) -/

/-- The hardcoded string-field map of the second revision. -/
def STRING_FIELDS_MAP : List (String × List String) :=
  [("renewableEnergyForecast", ["leadingText"]),
   ("monthlyProductionChart", ["leadingText"]),
   ("realPriceComparisonTable", ["leadingText"]),
   ("priceExampleTable", []),
   ("hero", ["headline", "subheadline"]),
   ("pageSection", ["title"]),
   ("featureList", ["title"]),
   ("featureItem", ["title", "description"]),
   ("valueProposition", ["title"]),
   ("providerList", ["title"]),
   ("livePriceGraph", ["title", "subtitle"]),
   ("videoSection", ["title"]),
   ("faqItem", ["question"]),
   ("callToActionSection", ["title", "buttonText", "buttonUrl"])]

/-- The second revision's placeholder inline `faqItem`. -/
def placeholderFaqItem2 (ts : Nat) : JsVal :=
  .obj [("_type", .str "faqItem"), ("_key", .str s!"faq-{ts}"),
        ("question", .str "Placeholder question"),
        ("answer", .arr [.obj
          [("_type", .str "block"), ("_key", .str s!"answer-{ts}"),
           ("style", .str "normal"),
           ("children", .arr [.obj
             [("_type", .str "span"), ("_key", .str s!"span-{ts}"),
              ("text", .str "Placeholder answer"), ("marks", .arr [])]]),
           ("markDefs", .arr [])]])]

/-- The second revision's provider replacement (no `_key`s). -/
def whitelistProviders2 : List JsVal :=
  (PROVIDER_WHITELIST.take 4).map (fun id =>
    .obj [("_type", .str "reference"), ("_ref", .str id)])

/-- The nested-item icon cleanup of the second revision:
`item.icon && typeof item.icon === 'string'` → delete — mutating the items
in place (a `null` item throws on the `item.icon` read). -/
def cleanIconItems2 (b : List (String × JsVal)) (field : String) :
    Except Unit (List (String × JsVal)) :=
  match getKey b field with
  | some (.arr items) => do
      let items' ← items.mapM (fun item => do
        match item with
        | .null => .error ()
        | .obj fs =>
            match getKey fs "icon" with
            | some (.str s) =>
                pure (if s ≠ "" then JsVal.obj (eraseKey fs "icon") else .obj fs)
            | _ => pure (.obj fs)
        | v => pure v)
      pure (setKey b field (.arr items'))
  | _ => pure b

/-- Per-block body of the second revision's `applyAutoFixes` (shallow copy
`{ ...blk }`; no block is ever dropped). -/
def autoFix2Block (ts : Nat) (blk : JsVal) : Except Unit JsVal := do
  let b := spreadToFields blk
  let btypeVal := getKey b "_type"
  -- 1. ensure `_key`
  let b :=
    if ¬ JsVal.truthyOpt (getKey b "_key") then
      let ty := match btypeVal with
        | some v => jsToString v
        | none => "undefined"
      setKey b "_key" (.str s!"{ty}-{ts}")
    else b
  -- 2. string icon fields
  let b := match getKey b "icon" with
    | some (.str s) => if s ≠ "" then eraseKey b "icon" else b
    | _ => b
  let b :=
    if getIsStr btypeVal "featureItem" ∧ hasKey b "icon" then eraseKey b "icon" else b
  -- 3. videoSection customThumbnail
  let b :=
    if getIsStr btypeVal "videoSection" ∧ hasKey b "customThumbnail" then
      eraseKey b "customThumbnail"
    else b
  -- string-field flattening via the hardcoded map
  let sfields := match btypeVal with
    | some (.str t) => (STRING_FIELDS_MAP.lookup t).getD []
    | _ => []
  let b ← sfields.foldlM (fun b f =>
      match getKey b f with
      | some (.arr l) => do
          let flattened ← toPlainString (.arr l)
          pure (setKey b f (.str flattened))
      | _ => pure b) b
  -- faqGroup sanitization: `(b.faqItems || []).filter(it => it?._type === 'faqItem')`
  let b ←
    if getIsStr btypeVal "faqGroup" then do
      let items0 ← match getKey b "faqItems" with
        | some (.arr l) => pure l
        | some v => if v.truthy then .error () else pure ([] : List JsVal)
        | none => pure ([] : List JsVal)
      let kept := items0.filter (fun it =>
        match it with
        | .null => false
        | v => getIsStr (v.get "_type") "faqItem")
      let final := if kept.isEmpty then [placeholderFaqItem2 ts] else kept
      pure (setKey b "faqItems" (.arr final))
    else pure b
  -- providerList validation (same `needsfix` scan as the first revision)
  let b ←
    if getIsStr btypeVal "providerList" then do
      let needsfix ← providersNeedFix (getKey b "providers")
      pure (if needsfix then setKey b "providers" (.arr whitelistProviders2) else b)
    else pure b
  -- deep nested icon fixes
  let b ←
    if getIsStr btypeVal "valueProposition" then cleanIconItems2 b "items" else pure b
  let b ←
    if getIsStr btypeVal "featureList" then cleanIconItems2 b "features" else pure b
  pure (.obj b)

/-- `applyAutoFixes(contentBlocks, schema)` — second revision (its
`schema` argument feeds no fix, only log lines). -/
def applyAutoFixes2 (ts : Nat) (contentBlocks : List JsVal) :
    Except Unit (List JsVal) := do
  let fixed ← contentBlocks.mapM (autoFix2Block ts)
  pure (fixed.map (fun b => (sanitizeReferences2 b).1))

/-! ## The two pipeline orchestrators -/

/-- `GenerationResponse` (token usage is passed through from the network
layer and carries no pipeline information). -/
structure GenResponse where
  success : Bool
  data : Option JsVal := none
  error : Option String := none
  deriving DecidableEq

/-- The emergency fallback block of the first revision (lines 1221–1237). -/
def fallbackBlock (ts : Nat) : JsVal :=
  .obj [("_type", .str "pageSection"), ("_key", .str s!"fallback-{ts}"),
        ("title", .str "Indhold ikke genereret"),
        ("content", .arr [.obj
          [("_type", .str "block"), ("_key", .str s!"block-{ts}"),
           ("style", .str "normal"),
           ("children", .arr [.obj
             [("_type", .str "span"), ("_key", .str s!"span-{ts}"),
              ("text", .str "AI-indholdet kunne ikke genereres korrekt. Prøv venligst igen med en anden model eller justér dine indstillinger."),
              ("marks", .arr [])]]),
           ("markDefs", .arr [])]])]

/-- The post-extraction pipeline of the **first** `generateContent`
revision (lines 1214–1272): auto-fix, emergency fallback when the fixed
array is empty, validation, then the success/failure decision; the
enclosing `try`/`catch` converts any thrown error into a typed failure. -/
def generateContent1Post (ts : Nat) (blocks : List JsVal)
    (schema : Option Manifest) : GenResponse :=
  let run : Except Unit GenResponse := do
    let fixed ← applyAutoFixes1 ts blocks schema
    let fixed := if fixed.isEmpty then [fallbackBlock ts] else fixed
    let postFixValidation ← validateContentBlocks fixed schema
    if ¬ postFixValidation.isValid then
      let joined := String.intercalate "; " postFixValidation.warnings
      pure ⟨false, none, some ("Auto-fix failed: " ++ joined)⟩
    else
      pure ⟨true, some (.obj [("contentBlocks", .arr fixed)]), none⟩
  match run with
  | .ok r => r
  | .error _ => ⟨false, none, some "Unknown error occurred"⟩

/-- The parse + fix + validate pipeline of the **second** `generateContent`
revision (lines 2132–2177): a single `JSON.parse` with an
empty-`contentBlocks` fallback, auto-fix without an emergency fallback,
validation, then the success/failure decision, in the enclosing
`try`/`catch`. -/
def generateContent2Post (ts : Nat) (content : String)
    (schema : Option Manifest) : GenResponse :=
  let parsed := (jsonParse content).getD (.obj [("contentBlocks", .arr [])])
  let blocks := match parsed.get "contentBlocks" with
    | some (.arr l) => l
    | _ => match parsed with
           | .arr l => l
           | _ => []
  let run : Except Unit GenResponse := do
    let fixed ← applyAutoFixes2 ts blocks
    let postFixValidation ← validateContentBlocks fixed schema
    if ¬ postFixValidation.isValid then
      let joined := String.intercalate "; " postFixValidation.warnings
      pure ⟨false, none, some ("Auto-fix failed: " ++ joined)⟩
    else
      pure ⟨true, some (.obj [("contentBlocks", .arr fixed)]), none⟩
  match run with
  | .ok r => r
  | .error _ => ⟨false, none, some "Unknown error occurred"⟩

/-! # Helper lemmas -/

theorem getKey_setKey_self (fs : List (String × JsVal)) (k : String) (v : JsVal) :
    getKey (setKey fs k v) k = some v := by
  induction fs with
  | nil => simp [setKey, getKey]
  | cons kv tl ih =>
    obtain ⟨k1, v1⟩ := kv
    by_cases h : k1 = k <;> simp [setKey, getKey, h, ih]

theorem getKey_setKey_ne (fs : List (String × JsVal)) (k k' : String) (v : JsVal)
    (h : k' ≠ k) : getKey (setKey fs k v) k' = getKey fs k' := by
  induction fs with
  | nil => simp [setKey, getKey, h, Ne.symm h]
  | cons kv tl ih =>
    obtain ⟨k1, v1⟩ := kv
    by_cases h1 : k1 = k
    · subst h1
      simp [setKey, getKey, h, Ne.symm h]
    · simp only [setKey, if_neg h1]
      by_cases h2 : k1 = k' <;> simp [getKey, h2, ih]

theorem getKey_filterKeys (p : String → Bool) (fs : List (String × JsVal)) (k : String) :
    getKey (fs.filter (fun kv => p kv.1)) k = if p k then getKey fs k else none := by
  induction fs with
  | nil => simp [getKey]
  | cons kv tl ih =>
    obtain ⟨k1, v1⟩ := kv
    by_cases h1 : p k1
    · by_cases h2 : k1 = k
      · subst h2
        simp [List.filter, h1, getKey, ih]
      · simp [List.filter, h1, getKey, h2, ih]
    · by_cases h2 : k1 = k
      · subst h2
        simp only [List.filter, h1]
        simp only [Bool.false_eq_true, if_false, ih, getKey]
        simp [h1]
      · simp [List.filter, h1, getKey, h2, ih]

theorem contains_mem {l : List String} {a : String} (h : l.contains a = true) :
    a ∈ l :=
  List.mem_of_elem_eq_true h

theorem mem_contains {l : List String} {a : String} (h : a ∈ l) :
    l.contains a = true :=
  List.elem_eq_true_of_mem h

theorem getKey_eraseKey (fs : List (String × JsVal)) (k k' : String) :
    getKey (eraseKey fs k) k' = if k' = k then none else getKey fs k' := by
  induction fs with
  | nil => by_cases h : k' = k <;> simp [eraseKey, getKey, h]
  | cons kv tl ih =>
    obtain ⟨k1, v1⟩ := kv
    by_cases h1 : k1 = k
    · rw [eraseKey, if_pos h1, ih]
      by_cases h2 : k' = k
      · simp [h2]
      · have h3 : ¬ k1 = k' := fun hh => h2 (by rw [← hh, h1])
        simp [getKey, h2, h3]
    · rw [eraseKey, if_neg h1]
      by_cases h2 : k1 = k'
      · have h3 : ¬ k' = k := fun hh => h1 (by rw [h2, hh])
        simp [getKey, h2, h3]
      · simp [getKey, h2, ih]

/-- All keys of an object lie in the reference allow-list. -/
def keysAllowed (fs : List (String × JsVal)) : Bool :=
  fs.all (fun kv => refAllowedKeys.contains kv.1)

theorem keysAllowed_filter (fs : List (String × JsVal)) :
    keysAllowed (fs.filter (fun kv => refAllowedKeys.contains kv.1)) = true := by
  simp only [keysAllowed, List.all_eq_true]
  intro kv hkv
  exact (List.mem_filter.mp hkv).2

theorem keysAllowed_setKey (fs : List (String × JsVal)) (k : String) (v : JsVal)
    (h : keysAllowed fs = true) (hk : refAllowedKeys.contains k = true) :
    keysAllowed (setKey fs k v) = true := by
  induction fs with
  | nil =>
      simp only [setKey, keysAllowed, List.all_cons, List.all_nil, Bool.and_true]
      exact hk
  | cons kv tl ih =>
    obtain ⟨k1, v1⟩ := kv
    simp only [keysAllowed, List.all_cons, Bool.and_eq_true] at h
    by_cases h1 : k1 = k
    · simp only [setKey, if_pos h1, keysAllowed, List.all_cons, Bool.and_eq_true]
      exact ⟨hk, h.2⟩
    · simp only [setKey, if_neg h1, keysAllowed, List.all_cons, Bool.and_eq_true]
      exact ⟨h.1, ih h.2⟩

theorem keysAllowed_eraseKey (fs : List (String × JsVal)) (k : String)
    (h : keysAllowed fs = true) : keysAllowed (eraseKey fs k) = true := by
  induction fs with
  | nil => simp [eraseKey, keysAllowed]
  | cons kv tl ih =>
    obtain ⟨k1, v1⟩ := kv
    simp only [keysAllowed, List.all_cons, Bool.and_eq_true] at h
    by_cases h1 : k1 = k
    · simp only [eraseKey, if_pos h1]
      exact ih h.2
    · simp only [eraseKey, if_neg h1, keysAllowed, List.all_cons, Bool.and_eq_true]
      exact ⟨h.1, ih h.2⟩

theorem filter_keysAllowed_self (fs : List (String × JsVal))
    (h : keysAllowed fs = true) :
    fs.filter (fun kv => refAllowedKeys.contains kv.1) = fs := by
  simp only [keysAllowed, List.all_eq_true] at h
  exact List.filter_eq_self.mpr h

theorem filter_keysAllowed_nil (fs : List (String × JsVal))
    (h : keysAllowed fs = true) :
    fs.filter (fun kv => ¬ refAllowedKeys.contains kv.1) = [] := by
  simp only [keysAllowed, List.all_eq_true] at h
  rw [List.filter_eq_nil_iff]
  intro kv hkv
  simp [contains_mem (h kv hkv)]

/-! # Claim theorems -/

/-- **C10**: for any schema manifest that has a `contentBlockTypes` array,
the compliance validator applied to an empty block list returns compliant
(`isValid = true`) with an empty warning list — an empty document is
vacuously compliant. -/
theorem C10_empty_blocklist_vacuously_compliant (m : Manifest) :
    validateContentBlocks [] (some m) = .ok ⟨true, []⟩ := rfl

/-- **C4**: field coercion is a no-op on already-valid values: whenever the
value already satisfies the declared tag (a string for the `string` tag,
an array for an array tag, a number for the `number` tag),
`enforceFieldType` returns no replacement value and reports neither a fix
nor a drop. -/
theorem C4_coercion_noop_on_valid (ts : Nat) (tag : String) (v : JsVal)
    (h : (tag = "string" ∧ v.isStr = true) ∨
         (containsSub tag "array" = true ∧ v.isArr = true) ∨
         (tag = "number" ∧ v.isNum = true)) :
    enforceFieldType ts v tag = .ok ⟨false, false, none, wasTypeOf v⟩ := by
  rcases h with ⟨ht, hv⟩ | ⟨ht, hv⟩ | ⟨ht, hv⟩
  · subst ht
    cases v <;> simp_all [JsVal.isStr, enforceFieldType]
  · have hts : tag ≠ "string" := by
      rintro rfl
      exact absurd ht (by decide)
    cases v <;> simp_all [JsVal.isArr, enforceFieldType]
  · subst ht
    have h1 : containsSub "number" "array" = false := by decide
    cases v <;> simp_all [JsVal.isNum, enforceFieldType, h1]

/-- Witness for C4 at the three concrete tag/value shapes. -/
theorem C4_coercion_noop_on_valid_witness :
    enforceFieldType 0 (.str "hello") "string" = .ok ⟨false, false, none, "string"⟩ ∧
    enforceFieldType 0 (.arr [.str "a"]) "array of strings" = .ok ⟨false, false, none, "array"⟩ ∧
    enforceFieldType 0 (.num 7) "number" = .ok ⟨false, false, none, "number"⟩ :=
  ⟨C4_coercion_noop_on_valid 0 "string" (.str "hello") (Or.inl ⟨rfl, rfl⟩),
   C4_coercion_noop_on_valid 0 "array of strings" (.arr [.str "a"])
     (Or.inr (Or.inl ⟨by decide, rfl⟩)),
   C4_coercion_noop_on_valid 0 "number" (.num 7) (Or.inr (Or.inr ⟨rfl, rfl⟩))⟩

theorem validateContentBlocks_ok_isValid {blocks : List JsVal}
    {schema : Option Manifest} {v : VRes}
    (h : validateContentBlocks blocks schema = .ok v) (hv : v.isValid = true) :
    v = ⟨true, []⟩ := by
  cases schema with
  | none =>
    simp only [validateContentBlocks, Except.ok.injEq] at h
    rw [← h] at hv
    simp at hv
  | some m =>
    simp only [validateContentBlocks] at h
    cases haux : validateBlocksAux (m.map (fun bt => bt.type)) m 0 blocks with
    | error e => rw [haux] at h; simp [Bind.bind, Except.bind] at h
    | ok ws =>
      rw [haux] at h
      simp only [Bind.bind, Except.bind, pure, Except.pure, Except.ok.injEq] at h
      rw [← h] at hv
      simp only at hv
      have hws : ws = [] := by
        cases ws with
        | nil => rfl
        | cons a tl => simp [List.isEmpty] at hv
      subst hws
      rw [← h]
      rfl

/-- **C1** (corrected): the first-revision orchestrator — the one with the
emergency fallback, lines 1214–1272 — returns, for every extracted block
array, either a typed failure (`success = false` with an error string) or
a success whose `contentBlocks` array is non-empty and reported compliant
by the validator.  (The second-revision orchestrator violates the original
claim; see the counterexample.) -/
theorem C1_orchestrator1_no_silent_empty_success (ts : Nat) (blocks : List JsVal)
    (schema : Option Manifest) :
    ((generateContent1Post ts blocks schema).success = false ∧
      ∃ e, (generateContent1Post ts blocks schema).error = some e) ∨
    ((generateContent1Post ts blocks schema).success = true ∧
      ∃ bs, (generateContent1Post ts blocks schema).data =
          some (.obj [("contentBlocks", .arr bs)]) ∧ bs ≠ [] ∧
        validateContentBlocks bs schema = .ok ⟨true, []⟩) := by
  unfold generateContent1Post
  cases hfix : applyAutoFixes1 ts blocks schema with
  | error e => simp [Bind.bind, Except.bind]
  | ok fixed =>
    simp only [Bind.bind, Except.bind]
    cases hval : validateContentBlocks
        (if fixed.isEmpty then [fallbackBlock ts] else fixed) schema with
    | error e => simp
    | ok v =>
      by_cases hv : v.isValid = true
      · right
        have hveq := validateContentBlocks_ok_isValid hval hv
        subst hveq
        simp only [if_pos rfl, pure, Except.pure]
        refine ⟨rfl, if fixed.isEmpty then [fallbackBlock ts] else fixed, rfl, ?_, hval⟩
        by_cases hempty : fixed.isEmpty
        · simp [hempty]
        · simp only [if_neg hempty]
          intro hnil
          rw [hnil] at hempty
          exact hempty rfl
      · left
        simp [hv, pure, Except.pure]

/-- **C1** (counterexample to the original claim): the second-revision
orchestrator (lines 2132–2177), given the raw reply `'not json at all'`
(on which every parse fails) and a well-formed manifest, returns
`success = true` with an **empty** `contentBlocks` array — a silent empty
success, which the claim says never happens. -/
theorem C1_counterexample_silent_empty_success :
    generateContent2Post 0 "not json at all"
      (some [⟨"hero", some ["headline"], none, none⟩]) =
    ⟨true, some (.obj [("contentBlocks", .arr [])]), none⟩ := by decide

/-- **C6** (counterexample to the original claim): a block whose `_type`
is unknown to the manifest but whose `_key` is missing contributes **two**
warnings, not one — the validator checks `_key` *before* the unknown-type
halt, so "exactly one warning regardless of its other fields" fails. -/
theorem C6_counterexample_two_warnings :
    validateContentBlocks [.obj [("_type", .str "bogus")]]
      (some [⟨"hero", none, none, none⟩]) =
    .ok ⟨false, ["Block 0 (bogus): Missing _key field",
                 "Block 0: Invalid _type \"bogus\". Valid types: hero"]⟩ := by
  decide

/-- **C6** (corrected): the validator checks, per block, (1) `_type`
present (halting), (2) `_key` present, (3) `_type` known to the manifest
(halting), then required fields, declared type tags and enums — the `_key`
check precedes the unknown-type halt.  A block with an unknown (truthy)
`_type` therefore contributes exactly one warning *provided its `_key` is
present*. -/
theorem C6_unknown_type_one_warning_when_key_present (m : Manifest)
    (fs : List (String × JsVal))
    (hkey : JsVal.truthyOpt (getKey fs "_key") = true)
    (htype : JsVal.truthyOpt (getKey fs "_type") = true)
    (hunk : ∀ s, getKey fs "_type" = some (.str s) →
        (m.map (fun bt => bt.type)).contains s = false) :
    ∃ w, validateContentBlocks [.obj fs] (some m) = .ok ⟨false, [w]⟩ := by
  have hcore : ∃ w0,
      validateBlockCore (m.map (fun bt => bt.type)) m (.obj fs) = .ok [w0] := by
    cases htv : getKey fs "_type" with
    | none => rw [htv] at htype; simp [JsVal.truthyOpt] at htype
    | some tv =>
      rw [htv] at htype
      unfold validateBlockCore
      cases tv with
      | str s =>
        have hs : s ≠ "" := by simpa [JsVal.truthyOpt, JsVal.truthy] using htype
        have hu := hunk s htv
        simp only [htv, hkey, Option.getD_some, hu, Bool.not_true, Bool.false_eq_true,
          if_false, List.nil_append]
        simp [JsVal.truthyOpt, JsVal.truthy, hs, pure, Except.pure]
      | null => simp [JsVal.truthyOpt, JsVal.truthy] at htype
      | bool b =>
        simp only [htv, hkey, Option.getD_some]
        simp [htype, pure, Except.pure]
      | num n =>
        simp only [htv, hkey, Option.getD_some]
        simp [htype, pure, Except.pure]
      | arr xs =>
        simp only [htv, hkey, Option.getD_some]
        simp [htype, pure, Except.pure]
      | obj gs =>
        simp only [htv, hkey, Option.getD_some]
        simp [htype, pure, Except.pure]
  obtain ⟨w0, hw0⟩ := hcore
  refine ⟨renderWarn 0 w0, ?_⟩
  simp only [validateContentBlocks, validateBlocksAux, hw0, Bind.bind, Except.bind,
    pure, Except.pure, List.map, List.append_nil, Except.ok.injEq]
  simp [List.isEmpty]

/-- Witness for C6 (corrected) at a concrete unknown-type block with a key
present, against a one-entry manifest. -/
theorem C6_unknown_type_one_warning_witness :
    ∃ w, validateContentBlocks
        [.obj [("_type", .str "bogus"), ("_key", .str "k")]]
        (some [⟨"hero", none, none, none⟩]) = .ok ⟨false, [w]⟩ :=
  C6_unknown_type_one_warning_when_key_present [⟨"hero", none, none, none⟩]
    [("_type", .str "bogus"), ("_key", .str "k")]
    (by decide) (by decide)
    (by
      intro s hs
      simp only [getKey] at hs
      have : s = "bogus" := by
        simp at hs
        exact hs.symm
      subst this
      decide)

/-- **C8** (counterexample to the original claim): a request with a missing
manifest *and* an empty topic (and empty keywords) reports only the
manifest error — the early `return` skips the topic/keyword checks, so the
two violations are *not* both reported. -/
theorem C8_counterexample_missing_manifest_hides_topic :
    validateGenerationRequest ⟨"", [], [], none⟩ =
      ⟨false, ["Schema manifest not loaded - ensure elportal-schema-manifest.json is available"]⟩ := by
  decide

theorem invalidBlocksMsg_ne_topic (ij aj : String) :
    invalidBlocksMsg ij aj ≠ "Topic is required" := by
  intro h
  have hd := congrArg String.data h
  simp only [invalidBlocksMsg] at hd
  rw [String.data_append _ aj, String.data_append _ ". Available types: ",
    String.data_append _ ij] at hd
  have h2 : ("Invalid block types requested: ").data =
      'I' :: ("nvalid block types requested: ").data := rfl
  rw [h2] at hd
  simp at hd

theorem invalidBlocksMsg_ne_keyword (ij aj : String) :
    invalidBlocksMsg ij aj ≠ "At least one keyword is required" := by
  intro h
  have hd := congrArg String.data h
  simp only [invalidBlocksMsg] at hd
  rw [String.data_append _ aj, String.data_append _ ". Available types: ",
    String.data_append _ ij] at hd
  have h2 : ("Invalid block types requested: ").data =
      'I' :: ("nvalid block types requested: ").data := rfl
  rw [h2] at hd
  simp at hd

theorem litA_ne_topic (x : String) :
    "Invalid block types requested: " ++ x ≠ "Topic is required" := by
  intro h
  have hd := congrArg String.data h
  rw [String.data_append] at hd
  have h2 : ("Invalid block types requested: ").data =
      'I' :: ("nvalid block types requested: ").data := rfl
  rw [h2] at hd
  simp at hd

theorem litA_ne_keyword (x : String) :
    "Invalid block types requested: " ++ x ≠ "At least one keyword is required" := by
  intro h
  have hd := congrArg String.data h
  rw [String.data_append] at hd
  have h2 : ("Invalid block types requested: ").data =
      'I' :: ("nvalid block types requested: ").data := rfl
  rw [h2] at hd
  simp at hd

theorem invalidBlocksMsg_shape (ij aj : String) :
    invalidBlocksMsg ij aj =
      "Invalid block types requested: " ++ (ij ++ (". Available types: " ++ aj)) := by
  simp [invalidBlocksMsg, String.append_assoc]

/-- **C8** (corrected): when the manifest is missing the check returns
only the manifest error (the early return skips the other checks); when
the manifest is present, the error list enumerates exactly the violated
preconditions among invalid optional block names, empty/blank topic, and
empty/all-blank keywords, and the request is valid iff there are none. -/
theorem C8_preconditions_enumerated (m : Manifest) (topic : String)
    (kws opts : List String) :
    (("Topic is required" ∈ (validateGenerationRequest ⟨topic, kws, opts, some m⟩).errors) ↔
        topic.trim.length = 0) ∧
    (("At least one keyword is required" ∈
        (validateGenerationRequest ⟨topic, kws, opts, some m⟩).errors) ↔
        (kws = [] ∨ ∀ k ∈ kws, k.trim.length = 0)) ∧
    ((∃ x, ("Invalid block types requested: " ++ x) ∈
        (validateGenerationRequest ⟨topic, kws, opts, some m⟩).errors) ↔
        ∃ o ∈ opts, ¬ ((m.map (fun bt => bt.type)).contains o = true)) ∧
    ((validateGenerationRequest ⟨topic, kws, opts, some m⟩).isValid = true ↔
        (validateGenerationRequest ⟨topic, kws, opts, some m⟩).errors = []) ∧
    (validateGenerationRequest ⟨topic, kws, opts, none⟩ =
      ⟨false, ["Schema manifest not loaded - ensure elportal-schema-manifest.json is available"]⟩) := by
  have hco : 0 < (opts.filter (fun bt =>
        ¬ (m.map (fun bt => bt.type)).contains bt)).length ↔
      ∃ o ∈ opts, ¬ ((m.map (fun bt => bt.type)).contains o = true) := by
    rw [List.length_pos, ne_eq, List.filter_eq_nil_iff]
    push_neg
    simp
  have hnt := invalidBlocksMsg_ne_topic (String.intercalate ", " (opts.filter
      (fun bt => ¬ (m.map (fun bt => bt.type)).contains bt)))
    (String.intercalate ", " (m.map (fun bt => bt.type)))
  have hnk := invalidBlocksMsg_ne_keyword (String.intercalate ", " (opts.filter
      (fun bt => ¬ (m.map (fun bt => bt.type)).contains bt)))
    (String.intercalate ", " (m.map (fun bt => bt.type)))
  have hnt2 := hnt.symm
  have hnk2 := hnk.symm
  simp only [validateGenerationRequest]
  refine ⟨?_, ?_, ?_, ?_, trivial⟩
  · split_ifs with h1 h2 h3 h3 h2 h3 h3 <;> simp_all
  · split_ifs with h1 h2 h3 h3 h2 h3 h3 <;>
      simp_all [List.isEmpty_iff, List.all_eq_true]
  · constructor
    · rintro ⟨x, hx⟩
      rw [← hco]
      by_cases h1 : 0 < (opts.filter (fun bt =>
          ¬ (m.map (fun bt => bt.type)).contains bt)).length
      · exact h1
      · exfalso
        rw [if_neg h1, List.nil_append] at hx
        rw [List.mem_append] at hx
        rcases hx with hx | hx
        · split_ifs at hx
          · rw [List.mem_singleton] at hx
            exact litA_ne_topic x hx
          · exact absurd hx (List.not_mem_nil _)
        · split_ifs at hx
          · rw [List.mem_singleton] at hx
            exact litA_ne_keyword x hx
          · exact absurd hx (List.not_mem_nil _)
    · intro hex
      refine ⟨(String.intercalate ", " (opts.filter
          (fun bt => ¬ (m.map (fun bt => bt.type)).contains bt))) ++
          (". Available types: " ++
            (String.intercalate ", " (m.map (fun bt => bt.type)))), ?_⟩
      rw [← invalidBlocksMsg_shape]
      have h1 := hco.mpr hex
      rw [if_pos h1]
      simp
  · split_ifs <;> simp [List.isEmpty_iff]

/-- **C9** (counterexample to the original claim): the validator accepts as
compliant a block list in which `pageSection` (index 0) precedes `hero`
(index 1) — it performs no ordering check at all, so compliant outputs may
order `pageSection` before `hero`. -/
theorem C9_counterexample_pageSection_before_hero :
    validateContentBlocks
      [.obj [("_type", .str "pageSection"), ("_key", .str "k1")],
       .obj [("_type", .str "hero"), ("_key", .str "k2")]]
      (some [⟨"hero", some [], none, none⟩, ⟨"pageSection", some [], none, none⟩]) =
    .ok ⟨true, []⟩ := by decide

theorem validateBlocksAux_ok_nil_iff (types : List String) (m : Manifest) :
    ∀ (i : Nat) (l : List JsVal),
      (validateBlocksAux types m i l = .ok [] ↔
        ∀ b ∈ l, validateBlockCore types m b = .ok []) := by
  intro i l
  induction l generalizing i with
  | nil => simp [validateBlocksAux, pure, Except.pure]
  | cons b tl ih =>
    simp only [validateBlocksAux, Bind.bind, Except.bind]
    constructor
    · intro h
      cases hc : validateBlockCore types m b with
      | error e => rw [hc] at h; simp at h
      | ok ws =>
        rw [hc] at h
        cases ha : validateBlocksAux types m (i + 1) tl with
        | error e => rw [ha] at h; simp at h
        | ok rest =>
          rw [ha] at h
          simp only [pure, Except.pure, Except.ok.injEq] at h
          obtain ⟨hws, hrest⟩ := List.append_eq_nil.mp h
          have hws0 : ws = [] := List.map_eq_nil_iff.mp hws
          subst hws0
          intro x hx
          rcases List.mem_cons.mp hx with hx | hx
          · subst hx; exact hc
          · exact (ih (i + 1)).mp (by rw [ha, hrest]) x hx
    · intro h
      have hb := h b (by simp)
      rw [hb]
      have htl : validateBlocksAux types m (i + 1) tl = .ok [] :=
        (ih (i + 1)).mpr (fun x hx => h x (by simp [hx]))
      rw [htl]
      rfl

theorem validateContentBlocks_compliant_iff (m : Manifest) (l : List JsVal) :
    validateContentBlocks l (some m) = .ok ⟨true, []⟩ ↔
    ∀ b ∈ l, validateBlockCore (m.map (fun bt => bt.type)) m b = .ok [] := by
  simp only [validateContentBlocks]
  constructor
  · intro h
    cases ha : validateBlocksAux (m.map (fun bt => bt.type)) m 0 l with
    | error e => rw [ha] at h; simp [Bind.bind, Except.bind] at h
    | ok ws =>
      rw [ha] at h
      simp only [Bind.bind, Except.bind, pure, Except.pure, Except.ok.injEq] at h
      have hws : ws = [] := by
        have := congrArg VRes.warnings h
        simpa using this
      subst hws
      exact (validateBlocksAux_ok_nil_iff _ m 0 l).mp ha
  · intro h
    rw [(validateBlocksAux_ok_nil_iff _ m 0 l).mpr h]
    rfl

/-- **C9** (corrected): the compliance validator applies only per-block
checks and never inspects block order, so compliance is invariant under
permutation of the block list.  In particular an accepted output may place
`pageSection` before `hero`; no ordering of the two mandatory block types
is enforced. -/
theorem C9_validator_order_insensitive (m : Manifest) (l l' : List JsVal)
    (hp : l.Perm l') (r : VRes)
    (h : validateContentBlocks l (some m) = .ok r) (hv : r.isValid = true) :
    validateContentBlocks l' (some m) = .ok ⟨true, []⟩ := by
  have hr := validateContentBlocks_ok_isValid h hv
  subst hr
  rw [validateContentBlocks_compliant_iff] at h ⊢
  intro b hb
  exact h b (hp.mem_iff.mpr hb)

/-- Witness for C9 (corrected): the compliant hero-first pair stays
compliant after swapping the two blocks. -/
theorem C9_validator_order_insensitive_witness :
    validateContentBlocks
      [.obj [("_type", .str "hero"), ("_key", .str "k2")],
       .obj [("_type", .str "pageSection"), ("_key", .str "k1")]]
      (some [⟨"hero", some [], none, none⟩, ⟨"pageSection", some [], none, none⟩]) =
    .ok ⟨true, []⟩ :=
  C9_validator_order_insensitive _
    [.obj [("_type", .str "pageSection"), ("_key", .str "k1")],
     .obj [("_type", .str "hero"), ("_key", .str "k2")]]
    _ (by decide) ⟨true, []⟩ (by decide) rfl

/-- **C2** (counterexample to the original claim): `fixProviderList` is not
total over all pre-repair `providers` values — on `providers = [null]` the
`needsfix` scan reads `p._type` off `null` (since `typeof null === 'object'`)
and throws, so no repaired array is produced at all. -/
theorem C2_counterexample_null_entry_throws :
    fixProviderList 0 [("providers", .arr [.null])] = .error () := rfl

theorem providerEntryBad_ok_false {i : Nat} {p : JsVal}
    (h : providerEntryBad i p = .ok false) :
    ∃ fs, p = .obj fs ∧ getKey fs "_type" = some (.str "reference") ∧
      ∃ s, getKey fs "_ref" = some (.str s) ∧ s ∈ PROVIDER_WHITELIST ∧
        (i = 0 → s = providerFirst) := by
  cases p with
  | null =>
    simp [providerEntryBad, JsVal.typeofObject, JsVal.getMem, Bind.bind, Except.bind] at h
  | bool x => simp [providerEntryBad, JsVal.typeofObject, pure, Except.pure] at h
  | num x => simp [providerEntryBad, JsVal.typeofObject, pure, Except.pure] at h
  | str x => simp [providerEntryBad, JsVal.typeofObject, pure, Except.pure] at h
  | arr xs =>
    simp [providerEntryBad, JsVal.typeofObject, JsVal.getMem, Bind.bind, Except.bind,
      getIsStr, pure, Except.pure, JsVal.get] at h
  | obj fs =>
    refine ⟨fs, rfl, ?_⟩
    simp only [providerEntryBad, JsVal.typeofObject, JsVal.getMem, Bind.bind,
      Except.bind, pure, Except.pure] at h
    split_ifs at h with h1 h2 h3 h4 h5
    all_goals simp only [Except.ok.injEq, Bool.true_eq_false] at h
    push_neg at h5
    have ht : getKey fs "_type" = some (.str "reference") := by
      cases hg : getKey fs "_type" with
      | none => rw [hg] at h2; simp [getIsStr] at h2
      | some v =>
        rw [hg] at h2
        cases v <;> simp [getIsStr] at h2
        rw [h2]
    have hr : ∃ s, getKey fs "_ref" = some (.str s) ∧ isValidProviderId s = true := by
      cases hg : getKey fs "_ref" with
      | none => rw [hg] at h4; simp [isValidProviderRef] at h4
      | some v =>
        rw [hg] at h4
        cases v <;> simp [isValidProviderRef] at h4
        exact ⟨_, rfl, h4⟩
    obtain ⟨s, hgs, hvs⟩ := hr
    refine ⟨ht, s, hgs, contains_mem hvs, ?_⟩
    intro hi0
    have h5' := h5 hi0
    rw [hgs] at h5'
    simpa [getIsStr] using h5'

theorem anyBadFrom_ok_false : ∀ (l : List JsVal) (i : Nat),
    anyBadFrom i l = .ok false →
    ∀ (j : Nat) (hj : j < l.length), providerEntryBad (i + j) l[j] = .ok false := by
  intro l
  induction l with
  | nil => intro i h j hj; exact absurd hj (by simp)
  | cons p tl ih =>
    intro i h j hj
    simp only [anyBadFrom, Bind.bind, Except.bind] at h
    cases hb : providerEntryBad i p with
    | error e => rw [hb] at h; simp at h
    | ok x =>
      rw [hb] at h
      cases x with
      | true => simp [pure, Except.pure] at h
      | false =>
        simp only at h
        cases j with
        | zero => simpa using hb
        | succ j' =>
          have h2 := ih (i + 1) h j'
            (by simp only [List.length_cons] at hj; omega)
          have h3 : i + 1 + j' = i + (j' + 1) := by omega
          rw [h3] at h2
          simpa using h2

/-- **C2** (corrected): whenever `fixProviderList` *completes* (it throws
exactly when the `needsfix` scan reaches a `null` entry), the block's
`providers` field is a non-empty array of reference objects whose entry 0
carries `_ref = PROVIDER_WHITELIST[0]` (the Vindstød id) and in which
every entry's `_ref` is drawn from the provider allow-list. -/
theorem C2_provider_repair_invariant (ts : Nat) (b out1 : List (String × JsVal))
    (n1 n2 : Nat) (h : fixProviderList ts b = .ok (out1, n1, n2)) :
    ∃ l, getKey out1 "providers" = some (.arr l) ∧ l ≠ [] ∧
      (∀ p ∈ l, ∃ fs, p = .obj fs ∧
        ∃ s, getKey fs "_ref" = some (.str s) ∧ s ∈ PROVIDER_WHITELIST) ∧
      (∃ fs0 s0, l.head? = some (.obj fs0) ∧
        getKey fs0 "_ref" = some (.str s0) ∧ s0 = providerFirst) := by
  simp only [fixProviderList, Bind.bind, Except.bind] at h
  cases hnf : providersNeedFix (getKey b "providers") with
  | error e => rw [hnf] at h; simp at h
  | ok needsfix =>
    rw [hnf] at h
    cases needsfix with
    | true =>
      have hout : out1 = setKey b "providers" (.arr (whitelistProviders ts)) := by
        simp [pure, Except.pure] at h
        exact h.1.symm
      rw [hout]
      refine ⟨whitelistProviders ts, getKey_setKey_self _ _ _, ?_, ?_, ?_⟩
      · simp [whitelistProviders, PROVIDER_WHITELIST, PROVIDER_ID_MAP]
      · intro p hp
        simp only [whitelistProviders] at hp
        rw [List.mem_map] at hp
        obtain ⟨id, hid, rfl⟩ := hp
        exact ⟨_, rfl, id, rfl, List.take_subset _ _ hid⟩
      · exact ⟨_, _, rfl, rfl, rfl⟩
    | false =>
      have hout : out1 = b := by
        simp [pure, Except.pure] at h
        exact h.1.symm
      rw [hout]
      cases hps : getKey b "providers" with
      | none => rw [hps] at hnf; simp [providersNeedFix, pure, Except.pure] at hnf
      | some ps =>
        rw [hps] at hnf
        cases ps with
        | arr l =>
          simp only [providersNeedFix] at hnf
          by_cases hemp : l.isEmpty
          · rw [if_pos hemp] at hnf; simp [pure, Except.pure] at hnf
          · rw [if_neg hemp] at hnf
            have hnth := anyBadFrom_ok_false l 0 hnf
            cases l with
            | nil => simp at hemp
            | cons p0 tl =>
              have h0 := providerEntryBad_ok_false (by simpa using hnth 0 (by simp))
              obtain ⟨fs0, hp0, ht0, s0, hs0, hw0, hfirst⟩ := h0
              refine ⟨p0 :: tl, rfl, by simp, ?_, ?_⟩
              · intro p hp
                obtain ⟨j, hj, hpj⟩ := List.mem_iff_getElem.mp hp
                have hbad := providerEntryBad_ok_false (by simpa using hnth j hj)
                obtain ⟨fs, hpf, -, s, hs, hw, -⟩ := hbad
                exact ⟨fs, by rw [← hpj, hpf], s, hs, hw⟩
              · exact ⟨fs0, s0, by simp [hp0], hs0, hfirst rfl⟩
        | null => simp [providersNeedFix, pure, Except.pure] at hnf
        | bool x => simp [providersNeedFix, pure, Except.pure] at hnf
        | num x => simp [providersNeedFix, pure, Except.pure] at hnf
        | str x => simp [providersNeedFix, pure, Except.pure] at hnf
        | obj gs => simp [providersNeedFix, pure, Except.pure] at hnf

/-- Witness for C2 (corrected) at a concrete completing input (an empty
pre-repair array, which the repairer replaces wholesale). -/
theorem C2_provider_repair_invariant_witness :
    ∃ l, getKey (setKey [("providers", JsVal.arr [])] "providers"
        (.arr (whitelistProviders 1))) "providers" = some (.arr l) ∧ l ≠ [] ∧
      (∀ p ∈ l, ∃ fs, p = .obj fs ∧
        ∃ s, getKey fs "_ref" = some (.str s) ∧ s ∈ PROVIDER_WHITELIST) ∧
      (∃ fs0 s0, l.head? = some (.obj fs0) ∧
        getKey fs0 "_ref" = some (.str s0) ∧ s0 = providerFirst) :=
  C2_provider_repair_invariant 1 [("providers", JsVal.arr [])] _ 1 0 rfl

theorem getIsStr_eq {o : Option JsVal} {s : String} (h : getIsStr o s = true) :
    o = some (.str s) := by
  cases o with
  | none => simp [getIsStr] at h
  | some v => cases v <;> simp [getIsStr] at h <;> rw [h]

/-- **C5**: on a `faqGroup` whose `faqItems` holds exactly two bare
reference entries (and no valid inline records), `fixFaqGroup` drops both
and synthesizes exactly one placeholder inline `faqItem` (whose `question`
is a string and whose `answer` is a rich-text array), so the post-repair
array has length 1; and in general the post-repair `faqItems` array is
never empty. -/
theorem C5_faq_two_bare_refs_one_placeholder (ts : Nat)
    (b : List (String × JsVal)) (r1 r2 : JsVal)
    (hfi : getKey b "faqItems" = some (.arr [r1, r2]))
    (h1 : bareRef r1 = true) (h2 : bareRef r2 = true) :
    getKey (fixFaqGroup ts b).1 "faqItems" = some (.arr [placeholderFaqItem ts]) ∧
    isStrOpt ((placeholderFaqItem ts).get "question") = true ∧
    (∃ ans, (placeholderFaqItem ts).get "answer" = some (.arr ans)) ∧
    (∀ (ts' : Nat) (b' : List (String × JsVal)),
      ∃ l, getKey (fixFaqGroup ts' b').1 "faqItems" = some (.arr l) ∧ l ≠ []) := by
  have hkeep : ∀ r, bareRef r = true → faqKeep r = false := by
    intro r hr
    cases r <;> simp [bareRef] at hr
    next fs =>
      have := getIsStr_eq hr
      simp [faqKeep, faqItemValid, JsVal.get, this, getIsStr]
  refine ⟨?_, rfl, ⟨_, rfl⟩, ?_⟩
  · simp only [fixFaqGroup, hfi]
    rw [List.filter_cons_of_neg (by simp [hkeep r1 h1]),
      List.filter_cons_of_neg (by simp [hkeep r2 h2])]
    simp [getKey_setKey_self]
  · intro ts' b'
    simp only [fixFaqGroup]
    refine ⟨_, getKey_setKey_self _ _ _, ?_⟩
    split
    · simp
    · next hk =>
        intro hnil
        apply hk
        rw [List.isEmpty_iff]
        exact hnil

/-- Witness for C5 at a concrete `faqGroup` with two bare reference
entries. -/
theorem C5_faq_two_bare_refs_witness :
    getKey (fixFaqGroup 9 [("faqItems", .arr
        [.obj [("_type", .str "reference"), ("_ref", .str "faq-a")],
         .obj [("_type", .str "reference"), ("_ref", .str "faq-b")]])]).1
      "faqItems" = some (.arr [placeholderFaqItem 9]) ∧
    isStrOpt ((placeholderFaqItem 9).get "question") = true ∧
    (∃ ans, (placeholderFaqItem 9).get "answer" = some (.arr ans)) ∧
    (∀ (ts' : Nat) (b' : List (String × JsVal)),
      ∃ l, getKey (fixFaqGroup ts' b').1 "faqItems" = some (.arr l) ∧ l ≠ []) :=
  C5_faq_two_bare_refs_one_placeholder 9 _
    (.obj [("_type", .str "reference"), ("_ref", .str "faq-a")])
    (.obj [("_type", .str "reference"), ("_ref", .str "faq-b")])
    rfl (by decide) (by decide)

/-- **C7** (counterexample to the original claim): for a well-formed JSON
object whose braces nest to depth 4, surrounded by prose, the boundary
scan recovers an inner sub-object instead of the full object — the stage-3
regex handles nesting only to depth 3, not to arbitrary depth. -/
theorem C7_counterexample_depth4_object :
    boundaryStage "x \x7b\"a\":\x7b\"b\":\x7b\"c\":\x7b\"d\":1\x7d\x7d\x7d\x7d y" =
      some (.obj [("b", .obj [("c", .obj [("d", .num 1)])])]) ∧
    jsonParse "\x7b\"a\":\x7b\"b\":\x7b\"c\":\x7b\"d\":1\x7d\x7d\x7d\x7d" =
      some (.obj [("a", .obj [("b", .obj [("c", .obj [("d", .num 1)])])])]) ∧
    (JsVal.obj [("b", .obj [("c", .obj [("d", .num 1)])])] ≠
      .obj [("a", .obj [("b", .obj [("c", .obj [("d", .num 1)])])])]) := by decide

theorem takeGroup_append : ∀ (l : List Char) (d : Nat) (m r ext : List Char),
    takeGroup d l = some (m, r) → takeGroup d (l ++ ext) = some (m, r ++ ext) := by
  intro l
  induction l with
  | nil => intro d m r ext h; simp [takeGroup] at h
  | cons c tl ih =>
    intro d m r ext h
    by_cases h1 : c = '{'
    · subst h1
      by_cases h2 : d ≥ 3
      · simp [takeGroup, h2] at h
      · simp only [takeGroup, if_pos rfl, if_neg h2, if_true, List.cons_append] at h ⊢
        cases ht : takeGroup (d + 1) tl with
        | none => rw [ht] at h; simp at h
        | some p =>
          rw [ht] at h
          simp only [Option.map_some', Option.some.injEq, Prod.mk.injEq] at h
          simp only [List.append_eq]
          rw [ih (d + 1) p.1 p.2 ext (by rw [ht])]
          simp [← h.1, ← h.2]
    · by_cases h3 : c = '}'
      · subst h3
        by_cases h4 : d = 1
        · simp only [takeGroup, if_neg (by decide : ¬('}' = '{')), if_pos h4, if_true,
            List.cons_append] at h ⊢
          simp only [Option.some.injEq, Prod.mk.injEq] at h
          simp [← h.1, ← h.2]
        · simp only [takeGroup, if_neg (by decide : ¬('}' = '{')), if_pos rfl,
            if_neg h4, if_true, List.cons_append] at h ⊢
          cases ht : takeGroup (d - 1) tl with
          | none => rw [ht] at h; simp at h
          | some p =>
            rw [ht] at h
            simp only [Option.map_some', Option.some.injEq, Prod.mk.injEq] at h
            simp only [List.append_eq]
            rw [ih (d - 1) p.1 p.2 ext (by rw [ht])]
            simp [← h.1, ← h.2]
      · simp only [takeGroup, if_neg h1, if_neg h3, List.cons_append] at h ⊢
        cases ht : takeGroup d tl with
        | none => rw [ht] at h; simp at h
        | some p =>
          rw [ht] at h
          simp only [Option.map_some', Option.some.injEq, Prod.mk.injEq] at h
          simp only [List.append_eq]
          rw [ih d p.1 p.2 ext (by rw [ht])]
          simp [← h.1, ← h.2]

theorem findGroup_append_left : ∀ (pre l : List Char),
    (∀ c ∈ pre, c ≠ '{') → findGroup (pre ++ l) = findGroup l := by
  intro pre
  induction pre with
  | nil => intro l h; simp
  | cons c tl ih =>
    intro l h
    have hc : c ≠ '{' := h c (by simp)
    simp only [List.cons_append, findGroup, if_neg hc]
    exact ih l (fun x hx => h x (by simp [hx]))

theorem asString_toList (s : String) : s.toList.asString = s := rfl

/-- **C7** (corrected): the boundary-scan stage matches the *leftmost
brace group of nesting depth at most 3* and parses it; so for every input
`pre ++ objText ++ post` in which `pre` is brace-open-free and `objText`
is a complete brace group of depth ≤ 3 that parses as JSON, the stage
recovers exactly that object.  (For deeper nesting the claim fails — see
the counterexample.) -/
theorem C7_boundary_scan_recovers_depth_le3 (pre objText post : String)
    (v : JsVal)
    (hpre : ∀ c ∈ pre.toList, c ≠ '{')
    (hgrp : ∃ body, objText.toList = '{' :: body ∧ takeGroup 1 body = some (body, []))
    (hjson : jsonParse objText = some v) :
    boundaryStage (pre ++ objText ++ post) = some v := by
  obtain ⟨body, hobj, htake⟩ := hgrp
  have hsplit : (pre ++ objText ++ post).toList =
      pre.toList ++ (objText.toList ++ post.toList) := by
    show (pre ++ objText ++ post).data = pre.data ++ (objText.data ++ post.data)
    rw [String.data_append, String.data_append, List.append_assoc]
  have hfind : findGroup (pre ++ objText ++ post).toList = some objText.toList := by
    rw [hsplit, findGroup_append_left pre.toList _ hpre, hobj, List.cons_append,
      findGroup, if_pos rfl,
      takeGroup_append body 1 body [] post.toList htake]
  simp only [boundaryStage, boundaryMatch, hfind, Option.map_some', asString_toList]
  exact hjson

/-- Witness for C7 (corrected) at a depth-2 object surrounded by prose. -/
theorem C7_boundary_scan_recovers_witness :
    boundaryStage ("Here is the page: " ++ "\x7b\"a\":\x7b\"b\":2\x7d\x7d" ++ " Hope it helps!") =
      some (.obj [("a", .obj [("b", .num 2)])]) :=
  C7_boundary_scan_recovers_depth_le3 "Here is the page: " "\x7b\"a\":\x7b\"b\":2\x7d\x7d"
    " Hope it helps!" (.obj [("a", .obj [("b", .num 2)])])
    (by decide)
    ⟨("\"a\":\x7b\"b\":2\x7d\x7d").toList, by decide, by decide⟩
    (by decide)

theorem getIsStr_some (w : JsVal) (s : String) :
    getIsStr (some w) s = decide (w = .str s) := by
  cases w <;> simp [getIsStr]

theorem san_preserves_truthy (v : JsVal) :
    ((sanitizeAllReferences v).1).truthy = v.truthy := by
  cases v with
  | obj fs =>
    by_cases hdet : isRefDetect fs = true <;>
      simp [sanitizeAllReferences, hdet, JsVal.truthy]
  | _ => simp [sanitizeAllReferences, JsVal.truthy]

theorem san_str_iff (v : JsVal) (t : String) :
    ((sanitizeAllReferences v).1 = .str t) ↔ (v = .str t) := by
  cases v with
  | obj fs =>
    by_cases hdet : isRefDetect fs = true <;>
      simp [sanitizeAllReferences, hdet]
  | _ => simp [sanitizeAllReferences]

theorem getKey_sanFields (fs : List (String × JsVal)) (k : String) :
    getKey (sanitizeAllFields fs).1 k =
      (getKey fs k).map (fun v => (sanitizeAllReferences v).1) := by
  induction fs with
  | nil => rfl
  | cons kv tl ih =>
    obtain ⟨k1, v1⟩ := kv
    simp only [sanitizeAllFields, getKey]
    by_cases h : k1 = k <;> simp [getKey, h, ih]

theorem isRefDetect_sanFields (fs : List (String × JsVal)) :
    isRefDetect (sanitizeAllFields fs).1 = isRefDetect fs := by
  simp only [isRefDetect, getKey_sanFields]
  congr 1
  · cases h : getKey fs "_ref" with
    | none => simp [JsVal.truthyOpt]
    | some v => simp [JsVal.truthyOpt, san_preserves_truthy]
  · cases h : getKey fs "_type" with
    | none => simp [getIsStr]
    | some v =>
      simp only [Option.map_some', getIsStr_some]
      simp [san_str_iff]

theorem sanitizeRefFields_noop (full : Bool) (g : List (String × JsVal))
    (ha : keysAllowed g = true)
    (hb : ¬ (JsVal.truthyOpt (getKey g "_ref") = true ∧
         ¬ getIsStr (getKey g "_type") "reference" = true))
    (hc : ¬ (full = true ∧ JsVal.truthyOpt (getKey g "_ref") = true ∧
         ¬ isStrOpt (getKey g "_ref") = true)) :
    sanitizeRefFields full g = (g, 0) := by
  rw [sanitizeRefFields]
  rw [filter_keysAllowed_nil g ha, filter_keysAllowed_self g ha]
  simp only [List.isEmpty_nil, if_true, if_neg hb, if_neg hc]

theorem sanitizeRefFields_fixpoint (full : Bool) (fs : List (String × JsVal))
    (hdet : isRefDetect fs = true) :
    isRefDetect (sanitizeRefFields full fs).1 = true ∧
    sanitizeRefFields full (sanitizeRefFields full fs).1 =
      ((sanitizeRefFields full fs).1, 0) := by
  have hcr : refAllowedKeys.contains "_ref" = true := by decide
  have hct : refAllowedKeys.contains "_type" = true := by decide
  have hrt : ("_ref" : String) ≠ "_type" := by decide
  have htr : ¬ ("_type" : String) = "_ref" := by decide
  have href : getKey (fs.filter (fun kv => refAllowedKeys.contains kv.1)) "_ref"
      = getKey fs "_ref" := by rw [getKey_filterKeys, if_pos hcr]
  have htype : getKey (fs.filter (fun kv => refAllowedKeys.contains kv.1)) "_type"
      = getKey fs "_type" := by rw [getKey_filterKeys, if_pos hct]
  have hka1 : keysAllowed (fs.filter (fun kv => refAllowedKeys.contains kv.1)) = true :=
    keysAllowed_filter fs
  by_cases h2 : JsVal.truthyOpt (getKey fs "_ref") = true ∧
      ¬ getIsStr (getKey fs "_type") "reference" = true
  · by_cases h3 : full = true ∧ JsVal.truthyOpt (getKey fs "_ref") = true ∧
        ¬ isStrOpt (getKey fs "_ref") = true
    · have hG1 : (sanitizeRefFields full fs).1 =
          eraseKey (setKey (fs.filter (fun kv => refAllowedKeys.contains kv.1))
            "_type" (.str "reference")) "_ref" := by
        rw [sanitizeRefFields]
        simp only [href, htype]
        rw [if_pos h2]
        simp only [getKey_setKey_ne _ _ _ _ hrt, href]
        rw [if_pos h3]
      rw [hG1]
      refine ⟨?_, sanitizeRefFields_noop full _ ?_ ?_ ?_⟩
      · simp [isRefDetect, getKey_eraseKey, htr, getKey_setKey_self, getIsStr,
          JsVal.truthyOpt]
      · exact keysAllowed_eraseKey _ _ (keysAllowed_setKey _ _ _ hka1 hct)
      · simp [getKey_eraseKey, JsVal.truthyOpt]
      · simp [getKey_eraseKey, JsVal.truthyOpt]
    · have hG1 : (sanitizeRefFields full fs).1 =
          setKey (fs.filter (fun kv => refAllowedKeys.contains kv.1))
            "_type" (.str "reference") := by
        rw [sanitizeRefFields]
        simp only [href, htype]
        rw [if_pos h2]
        simp only [getKey_setKey_ne _ _ _ _ hrt, href]
        rw [if_neg h3]
      rw [hG1]
      refine ⟨?_, sanitizeRefFields_noop full _ ?_ ?_ ?_⟩
      · simp [isRefDetect, getKey_setKey_self, getIsStr]
      · exact keysAllowed_setKey _ _ _ hka1 hct
      · simp [getKey_setKey_self, getIsStr]
      · rw [getKey_setKey_ne _ _ _ _ hrt, href]
        exact h3
  · by_cases h3 : full = true ∧ JsVal.truthyOpt (getKey fs "_ref") = true ∧
        ¬ isStrOpt (getKey fs "_ref") = true
    · have hT : getIsStr (getKey fs "_type") "reference" = true := by
        by_contra hT
        exact h2 ⟨h3.2.1, hT⟩
      have hG1 : (sanitizeRefFields full fs).1 =
          eraseKey (fs.filter (fun kv => refAllowedKeys.contains kv.1)) "_ref" := by
        rw [sanitizeRefFields]
        simp only [href, htype]
        rw [if_neg h2]
        simp only [href]
        rw [if_pos h3]
      rw [hG1]
      refine ⟨?_, sanitizeRefFields_noop full _ ?_ ?_ ?_⟩
      · rw [isRefDetect, getKey_eraseKey, getKey_eraseKey, if_pos rfl, if_neg htr,
          htype, hT]
        simp [JsVal.truthyOpt]
      · exact keysAllowed_eraseKey _ _ hka1
      · simp [getKey_eraseKey, JsVal.truthyOpt]
      · simp [getKey_eraseKey, JsVal.truthyOpt]
    · have hG1 : (sanitizeRefFields full fs).1 =
          fs.filter (fun kv => refAllowedKeys.contains kv.1) := by
        rw [sanitizeRefFields]
        simp only [href, htype]
        rw [if_neg h2]
        simp only [href]
        rw [if_neg h3]
      rw [hG1]
      refine ⟨?_, sanitizeRefFields_noop full _ hka1 ?_ ?_⟩
      · simp only [isRefDetect, href, htype]
        simpa [isRefDetect] using hdet
      · rw [href, htype]
        exact h2
      · rw [href]
        exact h3

theorem sanList_idem (xs : List JsVal)
    (ih : ∀ x ∈ xs, sanitizeAllReferences (sanitizeAllReferences x).1 =
      ((sanitizeAllReferences x).1, 0)) :
    sanitizeAllList (sanitizeAllList xs).1 = ((sanitizeAllList xs).1, 0) := by
  induction xs with
  | nil => rfl
  | cons x tl ihl =>
    have hx := ih x (by simp)
    have htl := ihl (fun y hy => ih y (by simp [hy]))
    simp only [sanitizeAllList, hx, htl]

theorem sanFields_idem (fs : List (String × JsVal))
    (ih : ∀ kv ∈ fs, sanitizeAllReferences (sanitizeAllReferences kv.2).1 =
      ((sanitizeAllReferences kv.2).1, 0)) :
    sanitizeAllFields (sanitizeAllFields fs).1 = ((sanitizeAllFields fs).1, 0) := by
  induction fs with
  | nil => rfl
  | cons kv tl ihl =>
    obtain ⟨k1, v1⟩ := kv
    have hx := ih (k1, v1) (by simp)
    have htl := ihl (fun y hy => ih y (by simp [hy]))
    simp only [sanitizeAllFields, hx, htl]

/-- **C3**: reference sanitization is idempotent: for every value, a second
application of `sanitizeAllReferences` (the lines 902–950 depth-first
traversal) returns the first pass's result unchanged with a sanitized
count of zero — the second pass removes no keys, forces no `_type`, and
deletes no `_ref`. -/
theorem C3_sanitizer_idempotent (v : JsVal) :
    sanitizeAllReferences (sanitizeAllReferences v).1 =
      ((sanitizeAllReferences v).1, 0) := by
  induction v using JsVal.inductionOn with
  | hnull => rfl
  | hbool b => rfl
  | hnum n => rfl
  | hstr s => rfl
  | harr xs ih =>
    simp only [sanitizeAllReferences, sanList_idem xs ih]
  | hobj fs ih =>
    by_cases hdet : isRefDetect fs = true
    · obtain ⟨hd2, hfix⟩ := sanitizeRefFields_fixpoint true fs hdet
      simp only [sanitizeAllReferences, if_pos hdet]
      simp only [if_pos hd2, hfix]
    · have hd2 : ¬ isRefDetect (sanitizeAllFields fs).1 = true := by
        rw [isRefDetect_sanFields]
        exact hdet
      simp only [sanitizeAllReferences, if_neg hdet]
      simp only [if_neg hd2, sanFields_idem fs ih]
